import Mathlib

/-!
# NeatPDF: the page collection editor of `my-watermark-app/src/App.jsx`

A shallow embedding of the event handlers of the `PDFToolkit` component.  The
React state of the component is one record, `AppState`; every handler is a
function from the state it closes over to the state after the setters it calls
have been applied.  The two libraries the handlers call into (pdf.js for
rendering, pdf-lib for assembling) are passed in as values.
-/

namespace NeatPDF

/-! ## Data model -/

/-- Raw bytes of a document. -/
abbrev ArrayBuffer := List Nat

/-- Identifier of an uploaded document.  The source draws it as the number
`Date.now() + Math.random()` and uses it in two ways only: strict equality and
interpolation into a template literal.  It is kept here by its decimal
rendering, which is what the interpolation yields and on which equality of two
such numbers agrees with equality of the numbers. -/
abbrev PdfId := String

/-- One entry of `pagesList`, as pushed by `generatePageThumbnails`. -/
structure PageDescriptor where
  id : String
  pdfId : PdfId
  pageNumber : Nat
  fileName : String
  thumbnail : String
  totalPages : Nat
deriving DecidableEq, Repr

/-- Page proxy of pdf.js: `render` stands for `getViewport`, the canvas set-up,
`page.render(...).promise` and `canvas.toDataURL()` together, giving the data
URL or the message of the exception thrown on the way. -/
structure PDFPageProxy where
  render : Except String String

/-- Document proxy of pdf.js. -/
structure PDFDocumentProxy where
  numPages : Nat
  getPage : Nat → Except String PDFPageProxy

/-- The part of `pdfjsLib` the component uses: `getDocument(...).promise`. -/
structure PdfJs where
  getDocument : ArrayBuffer → Except String PDFDocumentProxy

/-- A page of a pdf-lib document, identified by its content. -/
structure PDFPage where
  content : String
deriving DecidableEq, Repr

/-- A pdf-lib document: its pages in order. -/
structure PDFDocument where
  pages : List PDFPage
deriving DecidableEq, Repr

/-- The part of pdf-lib whose results depend on the bytes: `PDFDocument.load`
and `save`. -/
structure PdfLib where
  load : ArrayBuffer → Except String PDFDocument
  save : PDFDocument → ArrayBuffer

/-- A browser `File`: name, media type and content (`file.arrayBuffer()`). -/
structure File where
  name : String
  type : String
  arrayBuffer : ArrayBuffer
deriving DecidableEq, Repr

/-- One entry of `pdfFiles`, as pushed by `handleFileUpload`. -/
structure PdfFile where
  id : PdfId
  name : String
  file : File
  pdfDoc : PDFDocument
  pageCount : Nat
  arrayBuffer : ArrayBuffer
deriving DecidableEq, Repr

/-- Values of `currentView`. -/
inductive View where
  | landing
  | merge
  | split
deriving DecidableEq, Repr

/-- The `useState` cells of `PDFToolkit`.  `selectedPages` is a JavaScript `Set`
of page ids; the component only ever copies it, tests membership, adds, deletes
and reads its size, so its insertion order is not observable and it is kept as
a finite set. -/
structure AppState where
  pdfFiles : List PdfFile
  isProcessing : Bool
  currentView : View
  selectedPages : Finset String
  splitPages : List PageDescriptor
  rangeStart : String
  rangeEnd : String
  draggedIndex : Option Nat
  dragOverIndex : Option Nat
deriving DecidableEq

/-- The initial values given to `useState`. -/
def AppState.initial : AppState :=
  { pdfFiles := [], isProcessing := false, currentView := View.landing,
    selectedPages := ∅, splitPages := [], rangeStart := "", rangeEnd := "",
    draggedIndex := none, dragOverIndex := none }

/-- What a handler does to the outside world. -/
inductive Effect where
  | download (pdfBytes : ArrayBuffer) (fileName : String)
  | alert (message : String)
  | consoleError (message : String)
deriving DecidableEq, Repr

/-! ## JavaScript built-ins used by the handlers -/

/-- Reading `arr[k]` for a JavaScript number `k` that is an integer: `undefined`
(here `none`) outside `0 ≤ k < arr.length`. -/
def jsIndex {α : Type} (arr : List α) (k : Int) : Option α :=
  if k < 0 then none else arr[k.toNat]?

/-- `Array.prototype.splice(start, deleteCount, ...items)` for non-negative
integers `start` and `deleteCount`: the array after the call.  `start` is
clamped to the length, `deleteCount` to what is left after `start`. -/
def splice {α : Type} (arr : List α) (start deleteCount : Nat) (items : List α) : List α :=
  let actualStart := min start arr.length
  let actualDeleteCount := min deleteCount (arr.length - actualStart)
  arr.take actualStart ++ items ++ arr.drop (actualStart + actualDeleteCount)

/-- White space and line terminators skipped by `parseInt`. -/
def isWhiteSpace (c : Char) : Bool :=
  let n := c.toNat
  n = 0x9 || n = 0xA || n = 0xB || n = 0xC || n = 0xD || n = 0x20 || n = 0xA0 ||
  n = 0x1680 || (0x2000 ≤ n && n ≤ 0x200A) || n = 0x2028 || n = 0x2029 ||
  n = 0x202F || n = 0x205F || n = 0x3000 || n = 0xFEFF

/-- Value of a character as a digit, for radices up to 36. -/
def digitValue (c : Char) : Option Nat :=
  let n := c.toNat
  if 48 ≤ n ∧ n ≤ 57 then some (n - 48)
  else if 97 ≤ n ∧ n ≤ 122 then some (n - 97 + 10)
  else if 65 ≤ n ∧ n ≤ 90 then some (n - 65 + 10)
  else none

/-- Whether a character is a digit of radix `R`. -/
def isRadixDigit (R : Nat) (c : Char) : Bool :=
  match digitValue c with
  | some v => decide (v < R)
  | none => false

/-- The one-argument `parseInt(string)`: leading white space is skipped, a sign
is read, a `0x` or `0X` start switches to radix 16, and the longest run of
digits is converted; `none` is `NaN` (no digit).  The result is the exact
integer: a JavaScript number rounds it beyond 2^53, which changes none of the
comparisons `selectPageRange` makes against an array length. -/
def parseInt (string : String) : Option Int :=
  let S := string.toList.dropWhile isWhiteSpace
  let (sign, S) : Int × List Char :=
    match S with
    | '-' :: rest => (-1, rest)
    | '+' :: rest => (1, rest)
    | _ => (1, S)
  let (R, S) : Nat × List Char :=
    match S with
    | '0' :: 'x' :: rest => (16, rest)
    | '0' :: 'X' :: rest => (16, rest)
    | _ => (10, S)
  let Z := S.takeWhile (isRadixDigit R)
  if Z.isEmpty then none
  else some (sign * (Z.foldl (fun acc c => acc * R + (digitValue c).getD 0) 0 : Nat))

/-! ## Loading: `generatePageThumbnails`, `loadPagesForSplit` -/

/-- Body of `for (let i = 1; i <= numPages; i++)` in `generatePageThumbnails`,
run over the values `i` takes, in order; an exception thrown by `getPage` or by
rendering leaves the loop. -/
def thumbnailLoop (pdf : PDFDocumentProxy) (fileName : String) (pdfId : PdfId) (numPages : Nat) :
    List Nat → List PageDescriptor → Except String (List PageDescriptor)
  | [], pagesList => .ok pagesList
  | i :: rest, pagesList =>
    match pdf.getPage i with
    | .error e => .error e
    | .ok page =>
      match page.render with
      | .error e => .error e
      | .ok dataURL =>
        thumbnailLoop pdf fileName pdfId numPages rest
          (pagesList ++ [{ id := pdfId ++ "-page-" ++ toString i,
                           pdfId := pdfId,
                           pageNumber := i,
                           fileName := fileName,
                           thumbnail := dataURL,
                           totalPages := numPages }])

/-- The `try` block of `generatePageThumbnails`. -/
def generatePageThumbnailsTry (pdfjsLib : PdfJs) (arrayBuffer : ArrayBuffer) (fileName : String)
    (pdfId : PdfId) : Except String (List PageDescriptor) :=
  match pdfjsLib.getDocument arrayBuffer with
  | .error e => .error e
  | .ok pdf =>
    let numPages := pdf.numPages
    thumbnailLoop pdf fileName pdfId numPages (List.range' 1 numPages) []

/-- `generatePageThumbnails`: the `catch` logs and returns `[]`. -/
def generatePageThumbnails (pdfjsLib : PdfJs) (arrayBuffer : ArrayBuffer) (fileName : String)
    (pdfId : PdfId) : List PageDescriptor :=
  match generatePageThumbnailsTry pdfjsLib arrayBuffer fileName pdfId with
  | .ok pagesList => pagesList
  | .error _ => []

/-- `loadPagesForSplit`: the state once the handler has run to its end. -/
def loadPagesForSplit (pdfjsLib : PdfJs) (s : AppState) (pdfFile : PdfFile) : AppState :=
  let pages := generatePageThumbnails pdfjsLib pdfFile.arrayBuffer pdfFile.name pdfFile.id
  { s with splitPages := pages, selectedPages := ∅, isProcessing := false }

/-! ## Selection -/

/-- `togglePageSelection`. -/
def togglePageSelection (s : AppState) (pageId : String) : AppState :=
  let newSelected := s.selectedPages
  let newSelected := if pageId ∈ newSelected then newSelected.erase pageId
                     else insert pageId newSelected
  { s with selectedPages := newSelected }

/-- Body of `for (let i = start; i <= end; i++)` in `selectPageRange`, run over
the values `i` takes; reading `.id` of an `undefined` element throws. -/
def selectRangeLoop (splitPages : List PageDescriptor) :
    List Int → Finset String → Except String (Finset String)
  | [], newSelected => .ok newSelected
  | i :: rest, newSelected =>
    match jsIndex splitPages (i - 1) with
    | none => .error "TypeError: splitPages[i - 1] is undefined"
    | some page => selectRangeLoop splitPages rest (insert page.id newSelected)

/-- The values of `i` in `for (let i = start; i <= end; i++)`. -/
def rangeValues (start stop : Int) : List Int :=
  (List.range (stop - start + 1).toNat).map (fun (k : Nat) => start + (k : Int))

/-- `selectPageRange`.  An empty input string is falsy and returns at once; a
`NaN` makes every comparison of the guard false. -/
def selectPageRange (s : AppState) : Except String AppState :=
  if s.rangeStart = "" ∨ s.rangeEnd = "" then .ok s
  else
    match parseInt s.rangeStart, parseInt s.rangeEnd with
    | some start, some stop =>
      if 0 < start ∧ stop ≤ (s.splitPages.length : Int) ∧ start ≤ stop then
        match selectRangeLoop s.splitPages (rangeValues start stop) s.selectedPages with
        | .ok newSelected => .ok { s with selectedPages := newSelected }
        | .error e => .error e
      else .ok s
    | _, _ => .ok s

/-- `selectAllPages`. -/
def selectAllPages (s : AppState) : AppState :=
  { s with selectedPages := (s.splitPages.map (fun p => p.id)).toFinset }

/-- `deselectAllPages`. -/
def deselectAllPages (s : AppState) : AppState :=
  { s with selectedPages := ∅ }

/-- `deleteSelectedPages`. -/
def deleteSelectedPages (s : AppState) : AppState :=
  let newPages := s.splitPages.filter (fun page => !decide (page.id ∈ s.selectedPages))
  { s with splitPages := newPages, selectedPages := ∅ }

/-! ## Reordering by drag and drop -/

/-- `handleDragStart`: the state part (the rest styles the dragged element). -/
def handleDragStart (s : AppState) (index : Nat) : AppState :=
  { s with draggedIndex := some index }

/-- `handleDragEnd`. -/
def handleDragEnd (s : AppState) : AppState :=
  { s with draggedIndex := none, dragOverIndex := none }

/-- `handleDragEnter`. -/
def handleDragEnter (s : AppState) (index : Nat) : AppState :=
  if s.draggedIndex ≠ some index then { s with dragOverIndex := some index } else s

/-- `handleDrop`.  The result is `none` when `draggedIndex` lies outside the
array: JavaScript then reads `undefined` and inserts it, a value the page type
of this development excludes.  `handleDragStart` only ever records an index of
`splitPages.map`, so that case is not reached from the user interface. -/
def handleDrop (s : AppState) (dropIndex : Nat) : Option AppState :=
  match s.draggedIndex with
  | none => some { s with dragOverIndex := none }
  | some draggedIndex =>
    if draggedIndex = dropIndex then some { s with dragOverIndex := none }
    else
      let newPages := s.splitPages
      match newPages[draggedIndex]? with
      | none => none
      | some draggedPage =>
        let newPages := splice newPages draggedIndex 1 []
        let newPages := splice newPages dropIndex 0 [draggedPage]
        some { s with splitPages := newPages, draggedIndex := none, dragOverIndex := none }

/-- One reorder gesture: a drag started on the tile at `fromIndex` and dropped
on the tile at `toIndex`. -/
def reorder (s : AppState) (fromIndex toIndex : Nat) : Option AppState :=
  handleDrop (handleDragStart s fromIndex) toIndex

/-- A list of reorder gestures, one after the other. -/
def reorderAll : AppState → List (Nat × Nat) → Option AppState
  | s, [] => some s
  | s, (fromIndex, toIndex) :: rest =>
    match reorder s fromIndex toIndex with
    | none => none
    | some s' => reorderAll s' rest


/-! ## Assembling: `downloadAllPagesAsPDF` -/

/-- `PDFDocument.create()`. -/
def PDFDocument.create : PDFDocument :=
  { pages := [] }

/-- `doc.addPage(page)`: the page goes last. -/
def PDFDocument.addPage (doc : PDFDocument) (page : PDFPage) : PDFDocument :=
  { pages := doc.pages ++ [page] }

/-- `newPdf.copyPages(src, indices)`: the pages of `src` at the given 0-based
indices, in the order of `indices`; an index without a page throws. -/
def copyPages (src : PDFDocument) : List Int → Except String (List PDFPage)
  | [] => .ok []
  | k :: rest =>
    match jsIndex src.pages k with
    | none => .error "TypeError: no page at this index"
    | some page =>
      match copyPages src rest with
      | .error e => .error e
      | .ok copied => .ok (page :: copied)

/-- Body of `for (const page of splitPages)` in `downloadAllPagesAsPDF`. -/
def copyAllLoop (sourcePdf : PDFDocument) : List PageDescriptor → PDFDocument → Except String PDFDocument
  | [], newPdf => .ok newPdf
  | page :: rest, newPdf =>
    match copyPages sourcePdf [(page.pageNumber : Int) - 1] with
    | .error e => .error e
    | .ok [] => .error "TypeError: addPage called without a page"
    | .ok (copiedPage :: _) => copyAllLoop sourcePdf rest (newPdf.addPage copiedPage)

/-- The `try` block of `downloadAllPagesAsPDF`, given `splitPages[0]`: the
document built and the file name it is downloaded under. -/
def downloadAllPagesTry (pdfLib : PdfLib) (s : AppState) (first : PageDescriptor) :
    Except String (PDFDocument × String) :=
  let newPdf := PDFDocument.create
  match s.pdfFiles.find? (fun pdf => decide (pdf.id = first.pdfId)) with
  | none => .error "TypeError: pdfFile is undefined"
  | some pdfFile =>
    let freshArrayBuffer := pdfFile.file.arrayBuffer
    match pdfLib.load freshArrayBuffer with
    | .error e => .error e
    | .ok sourcePdf =>
      match copyAllLoop sourcePdf s.splitPages newPdf with
      | .error e => .error e
      | .ok newPdf => .ok (newPdf, "edited_" ++ pdfFile.name)

/-- `downloadAllPagesAsPDF`: the state once the handler has run to its end, and
what it did to the outside world. -/
def downloadAllPagesAsPDF (pdfLib : PdfLib) (s : AppState) : AppState × List Effect :=
  match s.splitPages with
  | [] => (s, [])
  | first :: _ =>
    match downloadAllPagesTry pdfLib s first with
    | .ok (newPdf, fileName) =>
      ({ s with isProcessing := false }, [Effect.download (pdfLib.save newPdf) fileName])
    | .error message =>
      ({ s with isProcessing := false },
        [Effect.consoleError ("Error creating PDF: " ++ message),
         Effect.alert ("Error creating PDF: " ++ message)])

/-! ## Editing sessions -/

/-- The user actions of the split editor that touch the page sequence or the
selection. -/
inductive EditorAction where
  | togglePageSelection (pageId : String)
  | setRangeStart (value : String)
  | setRangeEnd (value : String)
  | selectPageRange
  | selectAllPages
  | deselectAllPages
  | deleteSelectedPages
  | handleDragStart (index : Nat)
  | handleDragEnter (index : Nat)
  | handleDrop (dropIndex : Nat)
  | handleDragEnd
deriving DecidableEq, Repr

/-- The handler behind each action; `none` when the handler throws or leaves
the model (see `handleDrop`). -/
def applyAction (s : AppState) : EditorAction → Option AppState
  | .togglePageSelection pageId => some (togglePageSelection s pageId)
  | .setRangeStart value => some { s with rangeStart := value }
  | .setRangeEnd value => some { s with rangeEnd := value }
  | .selectPageRange => (selectPageRange s).toOption
  | .selectAllPages => some (selectAllPages s)
  | .deselectAllPages => some (deselectAllPages s)
  | .deleteSelectedPages => some (deleteSelectedPages s)
  | .handleDragStart index => some (handleDragStart s index)
  | .handleDragEnter index => some (handleDragEnter s index)
  | .handleDrop dropIndex => handleDrop s dropIndex
  | .handleDragEnd => some (handleDragEnd s)

/-- A session: the actions applied one after the other. -/
def runEditor : AppState → List EditorAction → Option AppState
  | s, [] => some s
  | s, a :: rest =>
    match applyAction s a with
    | none => none
    | some s' => runEditor s' rest


/-! ## Predicates and sample values used in the statements -/

/-- Page `i` of the document renders: neither `getPage(i)` nor the rendering of
the page it returns throws. -/
def pageRenders (pdf : PDFDocumentProxy) (i : Nat) : Bool :=
  match pdf.getPage i with
  | .error _ => false
  | .ok page =>
    match page.render with
    | .error _ => false
    | .ok _ => true

/-- A pdf.js that opens any buffer as a document with one page per byte, every
page rendering. -/
def samplePdfJs : PdfJs :=
  { getDocument := fun bytes =>
      .ok { numPages := bytes.length,
            getPage := fun i => .ok { render := .ok ("data:image/png;base64," ++ toString i) } } }

/-- A document of `n` pages whose page 3 fails to render. -/
def failingDocument (n : Nat) : PDFDocumentProxy :=
  { numPages := n,
    getPage := fun i => .ok { render := if i = 3 then .error "render failed" else .ok "data:," } }

/-- A pdf.js that opens any buffer as a document with one page per byte, whose
page 3 fails to render. -/
def failingPdfJs : PdfJs :=
  { getDocument := fun bytes => .ok (failingDocument bytes.length) }

/-- A pdf-lib that reads one page per byte and writes it back the same way. -/
def samplePdfLib : PdfLib :=
  { load := fun bytes => .ok { pages := bytes.map (fun b => { content := toString b }) },
    save := fun doc => doc.pages.map
      (fun page => page.content.toList.foldl (fun acc c => acc * 10 + (c.toNat - 48)) 0) }

/-- An uploaded four-page document. -/
def sampleFile : PdfFile :=
  { id := "1730000000000.25",
    name := "report.pdf",
    file := { name := "report.pdf", type := "application/pdf", arrayBuffer := [10, 20, 30, 40] },
    pdfDoc := { pages := [⟨"10"⟩, ⟨"20"⟩, ⟨"30"⟩, ⟨"40"⟩] },
    pageCount := 4,
    arrayBuffer := [10, 20, 30, 40] }

/-- The split view with `sampleFile` uploaded and nothing opened yet. -/
def sampleUploaded : AppState :=
  { AppState.initial with pdfFiles := [sampleFile], currentView := View.split }

/-- The split editor with the four pages of `sampleFile` loaded. -/
def sampleState : AppState :=
  loadPagesForSplit samplePdfJs sampleUploaded sampleFile

/-- A short session: select page 2, delete it, drag the first tile onto the
last. -/
def sampleSession : List EditorAction :=
  [EditorAction.togglePageSelection "1730000000000.25-page-2",
   EditorAction.deleteSelectedPages,
   EditorAction.handleDragStart 0,
   EditorAction.handleDrop 2]



/-! ## More built-ins: `String.prototype.replace` -/

/-- Whether the characters `pattern` stand at the start of `str`. -/
def startsWith : List Char → List Char → Bool
  | _, [] => true
  | [], _ :: _ => false
  | c :: str, p :: pattern => c == p && startsWith str pattern

/-- Replacement of the first occurrence of `pattern`, scanning from the left. -/
def replaceFirst (pattern replacement : List Char) : List Char → List Char
  | [] => if pattern.isEmpty then replacement else []
  | c :: str =>
    if startsWith (c :: str) pattern then replacement ++ (c :: str).drop pattern.length
    else c :: replaceFirst pattern replacement str

/-- `str.replace(pattern, replacement)` for a string pattern and a replacement
without `$`: only the first occurrence of the pattern is replaced, and a string
without the pattern comes back as it is. -/
def jsReplace (str pattern replacement : String) : String :=
  String.mk (replaceFirst pattern.toList replacement.toList str.toList)

/-! ## Assembling: the selected pages -/

/-- `pdfFiles.find(pdf => pdf.id === splitPages[0].pdfId)`.  The callback runs
once per entry until it answers true; it throws when `splitPages[0]` is
`undefined`.  `none` is the `undefined` that `find` returns without a match. -/
def findPdfFile (pdfFiles : List PdfFile) (splitPages : List PageDescriptor) :
    Except String (Option PdfFile) :=
  match pdfFiles with
  | [] => .ok none
  | _ :: _ =>
    match splitPages[0]? with
    | none => .error "TypeError: splitPages[0] is undefined"
    | some first => .ok (pdfFiles.find? (fun pdf => decide (pdf.id = first.pdfId)))

/-- Body of `for (const page of splitPages)` in `downloadSelectedAsOnePDF`. -/
def copySelectedLoop (sourcePdf : PDFDocument) (selectedPages : Finset String) :
    List PageDescriptor → PDFDocument → Except String PDFDocument
  | [], newPdf => .ok newPdf
  | page :: rest, newPdf =>
    if page.id ∈ selectedPages then
      match copyPages sourcePdf [(page.pageNumber : Int) - 1] with
      | .error e => .error e
      | .ok [] => .error "TypeError: addPage called without a page"
      | .ok (copiedPage :: _) =>
        copySelectedLoop sourcePdf selectedPages rest (newPdf.addPage copiedPage)
    else copySelectedLoop sourcePdf selectedPages rest newPdf

/-- The `try` block of `downloadSelectedAsOnePDF`: the document built and the
file name it is downloaded under. -/
def downloadSelectedAsOneTry (pdfLib : PdfLib) (s : AppState) :
    Except String (PDFDocument × String) :=
  let newPdf := PDFDocument.create
  match findPdfFile s.pdfFiles s.splitPages with
  | .error e => .error e
  | .ok none => .error "TypeError: pdfFile is undefined"
  | .ok (some pdfFile) =>
    let freshArrayBuffer := pdfFile.file.arrayBuffer
    match pdfLib.load freshArrayBuffer with
    | .error e => .error e
    | .ok sourcePdf =>
      match copySelectedLoop sourcePdf s.selectedPages s.splitPages newPdf with
      | .error e => .error e
      | .ok newPdf => .ok (newPdf, jsReplace pdfFile.name ".pdf" "" ++ "_selected.pdf")

/-- `downloadSelectedAsOnePDF`: the state once the handler has run to its end,
and what it did to the outside world. -/
def downloadSelectedAsOnePDF (pdfLib : PdfLib) (s : AppState) : AppState × List Effect :=
  if s.selectedPages.card = 0 then (s, [])
  else
    match downloadSelectedAsOneTry pdfLib s with
    | .ok (newPdf, fileName) =>
      ({ s with isProcessing := false }, [Effect.download (pdfLib.save newPdf) fileName])
    | .error message =>
      ({ s with isProcessing := false },
        [Effect.consoleError ("Error creating PDF: " ++ message),
         Effect.alert ("Error creating PDF: " ++ message)])

/-- Body of `for (const page of splitPages)` in `downloadSelectedPages`: the
downloads made so far, and the message of the exception that stopped the loop
when there was one. -/
def downloadSeparateLoop (pdfLib : PdfLib) (pdf : PDFDocument) (pdfFile : PdfFile)
    (selectedPages : Finset String) :
    List PageDescriptor → List Effect → List Effect × Option String
  | [], done => (done, none)
  | page :: rest, done =>
    if page.id ∈ selectedPages then
      let newPdf := PDFDocument.create
      match copyPages pdf [(page.pageNumber : Int) - 1] with
      | .error e => (done, some e)
      | .ok [] => (done, some "TypeError: addPage called without a page")
      | .ok (copiedPage :: _) =>
        let newPdf := newPdf.addPage copiedPage
        let pdfBytes := pdfLib.save newPdf
        let fileName :=
          jsReplace pdfFile.name ".pdf" "" ++ "_page_" ++ toString page.pageNumber ++ ".pdf"
        downloadSeparateLoop pdfLib pdf pdfFile selectedPages rest
          (done ++ [Effect.download pdfBytes fileName])
    else downloadSeparateLoop pdfLib pdf pdfFile selectedPages rest done

/-- What happens in `downloadSelectedPages` after an exception. -/
def downloadPagesCatch (message : String) : List Effect :=
  [Effect.consoleError ("Error downloading pages: " ++ message),
   Effect.alert ("Error downloading pages: " ++ message)]

/-- `downloadSelectedPages`: the state once the handler has run to its end, and
what it did to the outside world. -/
def downloadSelectedPages (pdfLib : PdfLib) (s : AppState) : AppState × List Effect :=
  if s.selectedPages.card = 0 then (s, [])
  else
    let effects : List Effect :=
      match findPdfFile s.pdfFiles s.splitPages with
      | .error e => downloadPagesCatch e
      | .ok none => downloadPagesCatch "TypeError: pdfFile is undefined"
      | .ok (some pdfFile) =>
        let freshArrayBuffer := pdfFile.file.arrayBuffer
        match pdfLib.load freshArrayBuffer with
        | .error e => downloadPagesCatch e
        | .ok pdf =>
          match downloadSeparateLoop pdfLib pdf pdfFile s.selectedPages s.splitPages [] with
          | (done, none) => done
          | (done, some e) => done ++ downloadPagesCatch e
    ({ s with isProcessing := false }, effects)

/-! ## Uploading and merging -/

/-- `pdfDoc.getPageCount()`. -/
def PDFDocument.getPageCount (doc : PDFDocument) : Nat :=
  doc.pages.length

/-- `pdf.getPageIndices()`: 0, 1, ..., page count - 1. -/
def PDFDocument.getPageIndices (doc : PDFDocument) : List Int :=
  (List.range doc.getPageCount).map (fun (k : Nat) => (k : Int))

/-- Body of `for (const file of files)` in `handleFileUpload`.  `pdfIds k` is the
number `Date.now() + Math.random()` drawn in the iteration for the file at
position `k` of the input. -/
def uploadLoop (pdfLib : PdfLib) (pdfIds : Nat → PdfId) :
    Nat → List File → List PdfFile → Except String (List PdfFile)
  | _, [], newPdfFiles => .ok newPdfFiles
  | k, file :: rest, newPdfFiles =>
    if file.type = "application/pdf" then
      let arrayBuffer := file.arrayBuffer
      match pdfLib.load arrayBuffer with
      | .error e => .error e
      | .ok pdfDoc =>
        let pageCount := pdfDoc.getPageCount
        let pdfId := pdfIds k
        uploadLoop pdfLib pdfIds (k + 1) rest
          (newPdfFiles ++ [{ id := pdfId, name := file.name, file := file, pdfDoc := pdfDoc,
                             pageCount := pageCount, arrayBuffer := arrayBuffer }])
    else uploadLoop pdfLib pdfIds (k + 1) rest newPdfFiles

/-- `handleFileUpload` on the files of the input.  The handler has no `catch`:
when `PDFDocument.load` throws the promise is rejected with that message, no
entry is added and `isProcessing` stays set. -/
def handleFileUpload (pdfLib : PdfLib) (pdfIds : Nat → PdfId) (s : AppState) (files : List File) :
    Except String AppState :=
  match uploadLoop pdfLib pdfIds 0 files [] with
  | .error e => .error e
  | .ok newPdfFiles => .ok { s with pdfFiles := s.pdfFiles ++ newPdfFiles, isProcessing := false }

/-- Body of `for (const pdfFile of pdfFiles)` in `mergePDFs`. -/
def mergeLoop (pdfLib : PdfLib) : List PdfFile → PDFDocument → Except String PDFDocument
  | [], mergedPdf => .ok mergedPdf
  | pdfFile :: rest, mergedPdf =>
    let freshArrayBuffer := pdfFile.file.arrayBuffer
    match pdfLib.load freshArrayBuffer with
    | .error e => .error e
    | .ok pdf =>
      match copyPages pdf pdf.getPageIndices with
      | .error e => .error e
      | .ok copiedPages =>
        mergeLoop pdfLib rest (copiedPages.foldl (fun doc page => doc.addPage page) mergedPdf)

/-- `mergePDFs`: the state once the handler has run to its end, and what it did
to the outside world. -/
def mergePDFs (pdfLib : PdfLib) (s : AppState) : AppState × List Effect :=
  if s.pdfFiles.length = 0 then (s, [])
  else
    match mergeLoop pdfLib s.pdfFiles PDFDocument.create with
    | .ok mergedPdf =>
      ({ s with isProcessing := false }, [Effect.download (pdfLib.save mergedPdf) "merged.pdf"])
    | .error message =>
      ({ s with isProcessing := false },
        [Effect.consoleError ("Error merging PDFs: " ++ message),
         Effect.alert ("Error merging PDFs: " ++ message)])

/-- `deletePDF`. -/
def deletePDF (s : AppState) (id : PdfId) : AppState :=
  { s with pdfFiles := s.pdfFiles.filter (fun pdf => !decide (pdf.id = id)) }

/-! ## Navigation -/

/-- `goBackToLanding`. -/
def goBackToLanding (s : AppState) : AppState :=
  { s with pdfFiles := [], splitPages := [], selectedPages := ∅, currentView := View.landing }

/-- The `onClick` of the "Back to PDFs" button of the split editor. -/
def backToPdfs (s : AppState) : AppState :=
  { s with splitPages := [], selectedPages := ∅ }

/-- The `onClick` of the two buttons of the landing screen. -/
def setCurrentView (s : AppState) (view : View) : AppState :=
  { s with currentView := view }

/-- The split view shows the page editor: `currentView === 'split'` with
`splitPages.length === 0` false. -/
def isSplitEdit (s : AppState) : Bool :=
  decide (s.currentView = View.split) && !decide (s.splitPages.length = 0)

/-- The split view shows the document chooser: `currentView === 'split'` with
`splitPages.length === 0`. -/
def isSplitSelect (s : AppState) : Bool :=
  decide (s.currentView = View.split) && decide (s.splitPages.length = 0)

/-! ## Whole sessions of the application -/

/-- The selection only holds ids of descriptors of the page sequence. -/
def selectionWithinPages (s : AppState) : Prop :=
  s.selectedPages ⊆ (s.splitPages.map (fun p => p.id)).toFinset

instance (s : AppState) : Decidable (selectionWithinPages s) := by
  unfold selectionWithinPages
  infer_instance

/-- What the user can do to the page sequence and the selection, as the screens
offer it: a tile exists for every descriptor of the sequence and for nothing
else, so a click or a drag always names positions inside the sequence. -/
inductive UserAction where
  | setCurrentView (view : View)
  | loadPagesForSplit (pdfFile : PdfFile)
  | clickTile (index : Nat)
  | setRangeStart (value : String)
  | setRangeEnd (value : String)
  | selectPageRange
  | selectAllPages
  | deselectAllPages
  | deleteSelectedPages
  | dragAndDrop (fromIndex toIndex : Nat)
  | backToPdfs
  | goBackToLanding
deriving DecidableEq, Repr

/-- The handler behind each user action; `none` when the screen has no such
tile or the handler throws. -/
def applyUserAction (pdfjsLib : PdfJs) (s : AppState) : UserAction → Option AppState
  | .setCurrentView view => some (setCurrentView s view)
  | .loadPagesForSplit pdfFile => some (loadPagesForSplit pdfjsLib s pdfFile)
  | .clickTile index =>
    match s.splitPages[index]? with
    | none => none
    | some page => some (togglePageSelection s page.id)
  | .setRangeStart value => some { s with rangeStart := value }
  | .setRangeEnd value => some { s with rangeEnd := value }
  | .selectPageRange => (selectPageRange s).toOption
  | .selectAllPages => some (selectAllPages s)
  | .deselectAllPages => some (deselectAllPages s)
  | .deleteSelectedPages => some (deleteSelectedPages s)
  | .dragAndDrop fromIndex toIndex =>
    if fromIndex < s.splitPages.length ∧ toIndex < s.splitPages.length then
      reorder s fromIndex toIndex
    else none
  | .backToPdfs => some (backToPdfs s)
  | .goBackToLanding => some (goBackToLanding s)

/-- A session: the user actions applied one after the other. -/
def runUser (pdfjsLib : PdfJs) : AppState → List UserAction → Option AppState
  | s, [] => some s
  | s, a :: rest =>
    match applyUserAction pdfjsLib s a with
    | none => none
    | some s' => runUser pdfjsLib s' rest

/-! ## More sample values -/

/-- The editor of `sampleState` with page 3 and then page 1 selected. -/
def sampleSelected : AppState :=
  togglePageSelection (togglePageSelection sampleState "1730000000000.25-page-3")
    "1730000000000.25-page-1"

/-- The editor of `sampleState` with every page selected. -/
def sampleAllSelected : AppState :=
  selectAllPages sampleState

/-- A three-page document to upload. -/
def sampleFileA : File :=
  { name := "a.pdf", type := "application/pdf", arrayBuffer := [1, 2, 3] }

/-- A two-page document to upload. -/
def sampleFileB : File :=
  { name := "b.pdf", type := "application/pdf", arrayBuffer := [4, 5] }

/-- Ids drawn during an upload. -/
def sampleIds (base : Nat) (k : Nat) : PdfId :=
  toString (base + k) ++ ".5"

/-- An uploaded document whose name has `.pdf` before its extension. -/
def sampleDottedFile : PdfFile :=
  { id := "1730000000001.75",
    name := "report.pdf.signed.pdf",
    file := { name := "report.pdf.signed.pdf", type := "application/pdf",
              arrayBuffer := [10, 20] },
    pdfDoc := { pages := [⟨"10"⟩, ⟨"20"⟩] },
    pageCount := 2,
    arrayBuffer := [10, 20] }

/-- The split editor with the two pages of `sampleDottedFile` loaded and the
second one selected. -/
def sampleDottedState : AppState :=
  togglePageSelection
    (loadPagesForSplit samplePdfJs
      { AppState.initial with pdfFiles := [sampleDottedFile], currentView := View.split }
      sampleDottedFile)
    "1730000000001.75-page-2"

/-- A session from the landing screen: open the split view, load a document,
click two tiles, select a range, delete, select all, reorder. -/
def sampleUserSession : List UserAction :=
  [UserAction.setCurrentView View.split,
   UserAction.loadPagesForSplit sampleFile,
   UserAction.clickTile 2,
   UserAction.clickTile 0,
   UserAction.clickTile 2,
   UserAction.setRangeStart "3",
   UserAction.setRangeEnd "4",
   UserAction.selectPageRange,
   UserAction.deleteSelectedPages,
   UserAction.selectAllPages,
   UserAction.dragAndDrop 0 0]

/-! ## Lemmas on the built-ins -/

theorem splice_delete_one {α : Type} (l : List α) (i : Nat) :
    splice l i 1 [] = l.eraseIdx i := by
  unfold splice
  rw [List.eraseIdx_eq_take_drop_succ]
  by_cases h : i < l.length
  · have h1 : min i l.length = i := by omega
    have h2 : min 1 (l.length - i) = 1 := by omega
    simp only [h1, h2, List.append_nil]
  · have h1 : min i l.length = l.length := by omega
    simp only [h1, Nat.sub_self, Nat.min_zero, Nat.add_zero, List.append_nil]
    rw [List.take_of_length_le (Nat.le_refl _), List.take_of_length_le (by omega),
      List.drop_of_length_le (Nat.le_refl _), List.drop_of_length_le (by omega)]

theorem insertIdx_eq_take_drop {α : Type} (x : α) :
    ∀ (l : List α) (j : Nat), j ≤ l.length → l.insertIdx j x = l.take j ++ x :: l.drop j
  | l, 0, _ => by simp
  | [], j + 1, h => by simp at h
  | a :: l, j + 1, h => by
    have ih := insertIdx_eq_take_drop x l j (by simpa using h)
    simp [ih]

theorem splice_insert_one {α : Type} (l : List α) (j : Nat) (x : α) (h : j ≤ l.length) :
    splice l j 0 [x] = l.insertIdx j x := by
  unfold splice
  have h1 : min j l.length = j := by omega
  simp only [h1, Nat.zero_min, Nat.add_zero]
  rw [insertIdx_eq_take_drop x l j h]
  simp

theorem cons_eraseIdx_perm {α : Type} (l : List α) (i : Nat) (h : i < l.length) :
    (l[i] :: l.eraseIdx i).Perm l := by
  rw [List.eraseIdx_eq_take_drop_succ]
  have hl : l.take i ++ l[i] :: l.drop (i + 1) = l := by
    rw [List.getElem_cons_drop l i h, List.take_append_drop]
  exact List.perm_middle.symm.trans (List.Perm.of_eq hl)

/-- What `handleDrop` computes when a drag is under way from an index inside the
array to a different index inside it. -/
theorem handleDrop_of_lt (s : AppState) (i j : Nat) (hd : s.draggedIndex = some i)
    (hi : i < s.splitPages.length) (hj : j < s.splitPages.length) (hij : i ≠ j) :
    handleDrop s j = some { s with
      splitPages := (s.splitPages.eraseIdx i).insertIdx j (s.splitPages[i]),
      draggedIndex := none, dragOverIndex := none } := by
  unfold handleDrop
  rw [hd]
  simp only [hij, if_false, List.getElem?_eq_getElem hi]
  rw [splice_delete_one, splice_insert_one]
  rw [List.length_eraseIdx]
  simp only [hi, if_true]
  omega

theorem insertIdx_eraseIdx_getElem {α : Type} :
    ∀ (l : List α) (i : Nat) (h : i < l.length), (l.eraseIdx i).insertIdx i l[i] = l
  | [], _, h => by simp at h
  | _ :: _, 0, _ => by simp
  | a :: l, i + 1, h => by
    have ih := insertIdx_eraseIdx_getElem l i (by simpa using h)
    simp [ih]

/-- One reorder gesture with both indices inside the array: the state it ends
in. -/
theorem reorder_of_lt (s : AppState) (i j : Nat)
    (hi : i < s.splitPages.length) (hj : j < s.splitPages.length) :
    ∃ s', reorder s i j = some s' ∧
      s'.splitPages = (s.splitPages.eraseIdx i).insertIdx j (s.splitPages[i]) ∧
      s'.selectedPages = s.selectedPages ∧ s'.pdfFiles = s.pdfFiles := by
  by_cases hij : i = j
  · subst hij
    refine ⟨{ handleDragStart s i with dragOverIndex := none }, ?_, ?_, rfl, rfl⟩
    · simp [reorder, handleDrop, handleDragStart]
    · simp [handleDragStart, insertIdx_eraseIdx_getElem]
  · refine ⟨_, handleDrop_of_lt (handleDragStart s i) i j rfl hi hj hij, rfl, rfl, rfl⟩

theorem moved_perm {α : Type} (l : List α) (i j : Nat) (hi : i < l.length) (hj : j < l.length) :
    ((l.eraseIdx i).insertIdx j l[i]).Perm l := by
  have hlen : j ≤ (l.eraseIdx i).length := by
    rw [List.length_eraseIdx]; simp only [hi, if_true]; omega
  exact (List.perm_insertIdx _ _ hlen).trans (cons_eraseIdx_perm l i hi)

theorem reorderAll_perm : ∀ (steps : List (Nat × Nat)) (s : AppState),
    (∀ st ∈ steps, st.1 < s.splitPages.length ∧ st.2 < s.splitPages.length) →
    ∃ s', reorderAll s steps = some s' ∧ s'.splitPages.Perm s.splitPages
  | [], s, _ => ⟨s, rfl, List.Perm.refl _⟩
  | (i, j) :: rest, s, h => by
    have hij := h (i, j) (List.mem_cons_self _ _)
    obtain ⟨s1, hs1, hpages, _⟩ := reorder_of_lt s i j hij.1 hij.2
    have hperm : s1.splitPages.Perm s.splitPages := hpages ▸ moved_perm _ i j hij.1 hij.2
    have hrest : ∀ st ∈ rest, st.1 < s1.splitPages.length ∧ st.2 < s1.splitPages.length := by
      intro st hst
      rw [hperm.length_eq]
      exact h st (List.mem_cons_of_mem _ hst)
    obtain ⟨s2, hs2, hperm2⟩ := reorderAll_perm rest s1 hrest
    exact ⟨s2, by simp [reorderAll, hs1, hs2], hperm2.trans hperm⟩

/-! ## Reordering -/

/-- C1: for every page sequence and every list of reorder gestures whose indices
lie inside the sequence, the gestures all go through and the sequence they end
in has the same multiset of page ids as the starting one (nothing lost, nothing
duplicated), is a permutation of it, and has the same length. -/
theorem reorderAll_preserves_ids (s : AppState) (steps : List (Nat × Nat))
    (h : ∀ st ∈ steps, st.1 < s.splitPages.length ∧ st.2 < s.splitPages.length) :
    ∃ s', reorderAll s steps = some s' ∧
      Multiset.ofList (s'.splitPages.map (fun p => p.id))
        = Multiset.ofList (s.splitPages.map (fun p => p.id)) ∧
      s'.splitPages.Perm s.splitPages ∧
      s'.splitPages.length = s.splitPages.length := by
  obtain ⟨s', hrun, hperm⟩ := reorderAll_perm steps s h
  exact ⟨s', hrun, Quotient.sound (hperm.map _), hperm, hperm.length_eq⟩

/-- C9: a drag from `fromIndex` dropped on `toIndex`, both inside the sequence,
yields the sequence with the element at `fromIndex` removed and put back at
index `toIndex`: the moved descriptor is at position `toIndex`, taking it out
again leaves the other descriptors as they were without it (same relative
order), and with equal indices the sequence is unchanged. -/
theorem handleDrop_moves_page (s : AppState) (fromIndex toIndex : Nat)
    (hfrom : fromIndex < s.splitPages.length) (hto : toIndex < s.splitPages.length) :
    ∃ s', reorder s fromIndex toIndex = some s' ∧
      s'.splitPages
        = (s.splitPages.eraseIdx fromIndex).insertIdx toIndex (s.splitPages[fromIndex]) ∧
      s'.splitPages[toIndex]? = some (s.splitPages[fromIndex]) ∧
      s'.splitPages.eraseIdx toIndex = s.splitPages.eraseIdx fromIndex ∧
      (fromIndex = toIndex → s'.splitPages = s.splitPages) ∧
      s'.selectedPages = s.selectedPages := by
  obtain ⟨s', hrun, hpages, hsel, _⟩ := reorder_of_lt s fromIndex toIndex hfrom hto
  have hlen : toIndex ≤ (s.splitPages.eraseIdx fromIndex).length := by
    rw [List.length_eraseIdx]; simp only [hfrom, if_true]; omega
  refine ⟨s', hrun, hpages, ?_, ?_, ?_, hsel⟩
  · rw [hpages, List.getElem?_eq_getElem (by rw [List.length_insertIdx _ _ hlen]; omega)]
    simp [List.getElem_insertIdx_self _ _ _ hlen]
  · rw [hpages, List.eraseIdx_insertIdx]
  · intro h
    subst h
    rw [hpages, insertIdx_eraseIdx_getElem]

theorem parseInt_empty : parseInt "" = none := by decide

theorem ne_empty_of_parseInt {str : String} {n : Int} (h : parseInt str = some n) : str ≠ "" := by
  intro he
  rw [he, parseInt_empty] at h
  exact Option.noConfusion h

theorem mem_rangeValues (start stop i : Int) :
    i ∈ rangeValues start stop ↔ start ≤ i ∧ i ≤ stop := by
  unfold rangeValues
  simp only [List.mem_map, List.mem_range]
  constructor
  · rintro ⟨k, hk, rfl⟩
    omega
  · rintro ⟨h1, h2⟩
    exact ⟨(i - start).toNat, by omega, by omega⟩

/-- The loop of `selectPageRange` over positions that all lie in the array adds
the ids found there and throws nothing. -/
theorem selectRangeLoop_ok (pages : List PageDescriptor) :
    ∀ (values : List Int) (sel : Finset String),
      (∀ i ∈ values, 1 ≤ i ∧ i ≤ (pages.length : Int)) →
      ∃ sel', selectRangeLoop pages values sel = .ok sel' ∧
        ∀ x, x ∈ sel' ↔ x ∈ sel ∨ ∃ i ∈ values, ∃ p, jsIndex pages (i - 1) = some p ∧ p.id = x
  | [], sel, _ => ⟨sel, rfl, by simp⟩
  | i :: rest, sel, h => by
    have hi := h i (List.mem_cons_self _ _)
    have hlt : (i - 1).toNat < pages.length := by omega
    have hidx : jsIndex pages (i - 1) = some (pages[(i - 1).toNat]) := by
      unfold jsIndex
      rw [if_neg (by omega), List.getElem?_eq_getElem hlt]
    obtain ⟨sel', hrun, hmem⟩ := selectRangeLoop_ok pages rest (insert (pages[(i - 1).toNat]).id sel)
      (fun k hk => h k (List.mem_cons_of_mem _ hk))
    refine ⟨sel', by simp only [selectRangeLoop, hidx, hrun], ?_⟩
    intro x
    rw [hmem x, Finset.mem_insert]
    constructor
    · rintro ((rfl | hx) | ⟨k, hk, p, hp, rfl⟩)
      · exact Or.inr ⟨i, List.mem_cons_self _ _, _, hidx, rfl⟩
      · exact Or.inl hx
      · exact Or.inr ⟨k, List.mem_cons_of_mem _ hk, p, hp, rfl⟩
    · rintro (hx | ⟨k, hk, p, hp, rfl⟩)
      · exact Or.inl (Or.inr hx)
      · rcases List.mem_cons.mp hk with rfl | hk
        · rw [hidx] at hp
          exact Or.inl (Or.inl (by rw [← Option.some.inj hp]))
        · exact Or.inr ⟨k, hk, p, hp, rfl⟩

/-! ## Range selection -/

/-- C2: when the two range inputs read as integers `start` and `stop` with
`start > stop`, `start < 1` or `stop` beyond the number of pages,
`selectPageRange` returns normally with the whole state, selection and page
sequence included, exactly as it was. -/
theorem selectPageRange_invalid_noop (s : AppState) (start stop : Int)
    (hstart : parseInt s.rangeStart = some start) (hstop : parseInt s.rangeEnd = some stop)
    (hbad : start > stop ∨ start < 1 ∨ stop > (s.splitPages.length : Int)) :
    selectPageRange s = .ok s := by
  unfold selectPageRange
  rw [if_neg (by simp [ne_empty_of_parseInt hstart, ne_empty_of_parseInt hstop])]
  simp only [hstart, hstop]
  rw [if_neg (by omega)]

/-- C3: when the two range inputs read as integers with
`1 ≤ start ≤ stop ≤ length`, `selectPageRange` returns normally, leaves the page
sequence alone, and the new selection holds exactly the ids selected before
together with the ids of the descriptors at the 1-based positions `start` to
`stop`. -/
theorem selectPageRange_adds_range (s : AppState) (start stop : Int)
    (hstart : parseInt s.rangeStart = some start) (hstop : parseInt s.rangeEnd = some stop)
    (h1 : 1 ≤ start) (h2 : start ≤ stop) (h3 : stop ≤ (s.splitPages.length : Int)) :
    ∃ s', selectPageRange s = .ok s' ∧ s'.splitPages = s.splitPages ∧
      ∀ x, x ∈ s'.selectedPages ↔
        x ∈ s.selectedPages ∨
        ∃ i : Nat, start ≤ (i : Int) ∧ (i : Int) ≤ stop ∧
          ∃ p, s.splitPages[i - 1]? = some p ∧ p.id = x := by
  have hvalues : ∀ i ∈ rangeValues start stop, 1 ≤ i ∧ i ≤ (s.splitPages.length : Int) := by
    intro i hi
    rw [mem_rangeValues] at hi
    omega
  obtain ⟨sel', hrun, hmem⟩ :=
    selectRangeLoop_ok s.splitPages (rangeValues start stop) s.selectedPages hvalues
  refine ⟨{ s with selectedPages := sel' }, ?_, rfl, ?_⟩
  · unfold selectPageRange
    rw [if_neg (by simp [ne_empty_of_parseInt hstart, ne_empty_of_parseInt hstop])]
    simp only [hstart, hstop]
    rw [if_pos ⟨by omega, h3, h2⟩, hrun]
  · intro x
    show x ∈ sel' ↔ _
    rw [hmem x]
    refine or_congr Iff.rfl ⟨?_, ?_⟩
    · rintro ⟨i, hi, p, hp, rfl⟩
      rw [mem_rangeValues] at hi
      refine ⟨i.toNat, by omega, by omega, p, ?_, rfl⟩
      unfold jsIndex at hp
      rw [if_neg (by omega)] at hp
      rw [← hp]
      congr 1
      omega
    · rintro ⟨i, hi1, hi2, p, hp, rfl⟩
      refine ⟨(i : Int), (mem_rangeValues _ _ _).mpr ⟨hi1, hi2⟩, p, ?_, rfl⟩
      unfold jsIndex
      rw [if_neg (by omega), ← hp]
      congr 1
      omega

/-! ## Lemmas on loading -/

/-- Shape of what the thumbnail loop returns when it returns: the descriptors
pushed carry the values of `i` in order, the document id, and the composite
id. -/
theorem thumbnailLoop_shape (pdf : PDFDocumentProxy) (fileName : String) (pdfId : PdfId)
    (numPages : Nat) :
    ∀ (values : List Nat) (acc res : List PageDescriptor),
      thumbnailLoop pdf fileName pdfId numPages values acc = .ok res →
      ∃ pages, res = acc ++ pages ∧ pages.map (fun p => p.pageNumber) = values ∧
        ∀ p ∈ pages, p.pdfId = pdfId ∧ p.id = pdfId ++ "-page-" ++ toString p.pageNumber
  | [], acc, res, h => by
    simp only [thumbnailLoop, Except.ok.injEq] at h
    exact ⟨[], by simp [h], rfl, by simp⟩
  | i :: rest, acc, res, h => by
    unfold thumbnailLoop at h
    split at h
    · exact Except.noConfusion h
    · split at h
      · exact Except.noConfusion h
      · obtain ⟨pages, hres, hnum, hall⟩ := thumbnailLoop_shape pdf fileName pdfId numPages rest _ res h
        refine ⟨_ :: pages, by rw [hres, List.append_assoc]; rfl, by simp [hnum], ?_⟩
        intro p hp
        rcases List.mem_cons.mp hp with rfl | hp
        · exact ⟨rfl, rfl⟩
        · exact hall p hp

/-- The thumbnail loop returns when every page it visits renders. -/
theorem thumbnailLoop_ok (pdf : PDFDocumentProxy) (fileName : String) (pdfId : PdfId)
    (numPages : Nat) :
    ∀ (values : List Nat) (acc : List PageDescriptor),
      (∀ i ∈ values, pageRenders pdf i = true) →
      ∃ res, thumbnailLoop pdf fileName pdfId numPages values acc = .ok res
  | [], acc, _ => ⟨acc, rfl⟩
  | i :: rest, acc, h => by
    have hi := h i (List.mem_cons_self _ _)
    unfold pageRenders at hi
    unfold thumbnailLoop
    split at hi
    · exact Bool.noConfusion hi
    · rename_i page hpage
      split at hi
      · exact Bool.noConfusion hi
      · rename_i url hurl
        exact thumbnailLoop_ok pdf fileName pdfId numPages rest _
          (fun k hk => h k (List.mem_cons_of_mem _ hk))

/-- The thumbnail loop throws when a page it visits does not render. -/
theorem thumbnailLoop_error (pdf : PDFDocumentProxy) (fileName : String) (pdfId : PdfId)
    (numPages : Nat) :
    ∀ (values : List Nat) (acc : List PageDescriptor),
      (∃ i ∈ values, pageRenders pdf i = false) →
      ∃ e, thumbnailLoop pdf fileName pdfId numPages values acc = .error e
  | [], _, h => by simp at h
  | i :: rest, acc, h => by
    unfold thumbnailLoop
    split
    · exact ⟨_, rfl⟩
    · rename_i page hpage
      split
      · exact ⟨_, rfl⟩
      · rename_i url hurl
        apply thumbnailLoop_error pdf fileName pdfId numPages rest
        obtain ⟨k, hk, hfail⟩ := h
        rcases List.mem_cons.mp hk with rfl | hk
        · simp [pageRenders, hpage, hurl] at hfail
        · exact ⟨k, hk, hfail⟩

/-- Whatever `generatePageThumbnails` returns, its descriptors carry the page
numbers 1, 2, ... in order, the document id and the composite id. -/
theorem generatePageThumbnails_shape (pdfjsLib : PdfJs) (arrayBuffer : ArrayBuffer)
    (fileName : String) (pdfId : PdfId) :
    (generatePageThumbnails pdfjsLib arrayBuffer fileName pdfId).map (fun p => p.pageNumber)
        = List.range' 1 (generatePageThumbnails pdfjsLib arrayBuffer fileName pdfId).length ∧
      ∀ p ∈ generatePageThumbnails pdfjsLib arrayBuffer fileName pdfId,
        p.pdfId = pdfId ∧ p.id = pdfId ++ "-page-" ++ toString p.pageNumber := by
  unfold generatePageThumbnails
  split
  · rename_i pagesList htry
    unfold generatePageThumbnailsTry at htry
    split at htry
    · exact Except.noConfusion htry
    · rename_i pdf hdoc
      obtain ⟨pages, hres, hnum, hall⟩ := thumbnailLoop_shape _ _ _ _ _ _ _ htry
      rw [List.nil_append] at hres
      rw [hres]
      refine ⟨?_, hall⟩
      have hlen : pages.length = pdf.numPages := by
        have := congrArg List.length hnum
        simpa using this
      rw [hnum, hlen]
  · exact ⟨rfl, by simp⟩

/-- When the document opens and every page renders, `generatePageThumbnails`
returns one descriptor per page. -/
theorem generatePageThumbnails_length (pdfjsLib : PdfJs) (arrayBuffer : ArrayBuffer)
    (fileName : String) (pdfId : PdfId) (pdf : PDFDocumentProxy)
    (hdoc : pdfjsLib.getDocument arrayBuffer = .ok pdf)
    (hrender : ∀ i, 1 ≤ i → i ≤ pdf.numPages → pageRenders pdf i = true) :
    (generatePageThumbnails pdfjsLib arrayBuffer fileName pdfId).length = pdf.numPages := by
  obtain ⟨res, hres⟩ := thumbnailLoop_ok pdf fileName pdfId pdf.numPages
    (List.range' 1 pdf.numPages) [] (by
      intro i hi
      rw [List.mem_range'_1] at hi
      exact hrender i hi.1 (by omega))
  obtain ⟨pages, hpages, hnum, _⟩ := thumbnailLoop_shape _ _ _ _ _ _ _ hres
  rw [List.nil_append] at hpages
  have hgen : generatePageThumbnails pdfjsLib arrayBuffer fileName pdfId = pages := by
    simp only [generatePageThumbnails, generatePageThumbnailsTry, hdoc, hres, hpages]
  rw [hgen]
  have := congrArg List.length hnum
  simpa using this

/-! ## Deleting and selecting all -/

/-- C4: `deleteSelectedPages` empties the selection and leaves the sequence of
the descriptors whose id was not selected, in their previous relative order: a
descriptor is in the new sequence exactly when it was in the old one with an
unselected id, as often as before, and the new sequence is a subsequence of the
old one. -/
theorem deleteSelectedPages_removes_selected (s : AppState) :
    (deleteSelectedPages s).selectedPages = ∅ ∧
      (deleteSelectedPages s).splitPages.Sublist s.splitPages ∧
      (∀ p, p ∈ (deleteSelectedPages s).splitPages ↔ p ∈ s.splitPages ∧ p.id ∉ s.selectedPages) ∧
      (∀ p, p.id ∈ s.selectedPages → p ∉ (deleteSelectedPages s).splitPages) ∧
      (∀ p, p.id ∉ s.selectedPages →
        (deleteSelectedPages s).splitPages.count p = s.splitPages.count p) := by
  refine ⟨rfl, List.filter_sublist _, ?_, ?_, ?_⟩
  · intro p
    simp [deleteSelectedPages, List.mem_filter]
  · intro p hp
    simp [deleteSelectedPages, List.mem_filter, hp]
  · intro p hp
    simp only [deleteSelectedPages]
    rw [List.count_filter]
    simp [hp]

/-- C5: after `deleteSelectedPages` and then `selectAllPages` the selection is
the set of ids of the descriptors left in the sequence: every remaining
descriptor is selected, every selected id belongs to a remaining descriptor,
and no id that was selected for deletion is in it. -/
theorem selectAll_after_delete (s : AppState) :
    (selectAllPages (deleteSelectedPages s)).splitPages = (deleteSelectedPages s).splitPages ∧
      (∀ x, x ∈ (selectAllPages (deleteSelectedPages s)).selectedPages ↔
        ∃ p ∈ (deleteSelectedPages s).splitPages, p.id = x) ∧
      (∀ x, x ∈ (selectAllPages (deleteSelectedPages s)).selectedPages ↔
        ∃ p ∈ s.splitPages, p.id ∉ s.selectedPages ∧ p.id = x) ∧
      (∀ x, x ∈ s.selectedPages → x ∉ (selectAllPages (deleteSelectedPages s)).selectedPages) := by
  have hmem : ∀ x, x ∈ (selectAllPages (deleteSelectedPages s)).selectedPages ↔
      ∃ p ∈ s.splitPages, p.id ∉ s.selectedPages ∧ p.id = x := by
    intro x
    simp [selectAllPages, deleteSelectedPages, List.mem_filter, and_assoc]
  refine ⟨rfl, ?_, hmem, ?_⟩
  · intro x
    simp [selectAllPages]
  · intro x hx hin
    obtain ⟨p, _, hp, rfl⟩ := (hmem x).mp hin
    exact hp hx

/-! ## Loading -/

/-- C6: when the document opens with `N` pages and every page renders,
`generatePageThumbnails` returns `N` descriptors whose page numbers are
1, ..., N in that order; the one at 0-based position `k` has page number
`k + 1`, the document id as `pdfId`, and the id `<pdfId>-page-<k+1>`. -/
theorem generatePageThumbnails_all_pages (pdfjsLib : PdfJs) (arrayBuffer : ArrayBuffer)
    (fileName : String) (pdfId : PdfId) (pdf : PDFDocumentProxy)
    (hdoc : pdfjsLib.getDocument arrayBuffer = .ok pdf)
    (hrender : ∀ i, 1 ≤ i → i ≤ pdf.numPages → pageRenders pdf i = true) :
    (generatePageThumbnails pdfjsLib arrayBuffer fileName pdfId).length = pdf.numPages ∧
      (generatePageThumbnails pdfjsLib arrayBuffer fileName pdfId).map (fun p => p.pageNumber)
        = List.range' 1 pdf.numPages ∧
      ∀ k, k < pdf.numPages →
        ∃ p, (generatePageThumbnails pdfjsLib arrayBuffer fileName pdfId)[k]? = some p ∧
          p.pageNumber = k + 1 ∧ p.pdfId = pdfId ∧
          p.id = pdfId ++ "-page-" ++ toString (k + 1) := by
  have hlen := generatePageThumbnails_length pdfjsLib arrayBuffer fileName pdfId pdf hdoc hrender
  obtain ⟨hnum, hall⟩ := generatePageThumbnails_shape pdfjsLib arrayBuffer fileName pdfId
  generalize generatePageThumbnails pdfjsLib arrayBuffer fileName pdfId = pages at hlen hnum hall
  rw [hlen] at hnum
  refine ⟨hlen, hnum, ?_⟩
  intro k hk
  have hk' : k < pages.length := by omega
  have hpn : (pages[k]).pageNumber = k + 1 := by
    have h1 : (pages.map (fun p => p.pageNumber))[k]? = (List.range' 1 pdf.numPages)[k]? := by
      rw [hnum]
    rw [List.getElem?_map, List.getElem?_eq_getElem hk'] at h1
    rw [List.getElem?_range' _ _ hk] at h1
    simp only [Option.map_some', Option.some.injEq] at h1
    omega
  have hp := hall pages[k] (List.getElem_mem hk')
  exact ⟨pages[k], List.getElem?_eq_getElem hk', hpn, hp.1, by rw [hp.2, hpn]⟩

/-- C7: when the document does not open, or one of its pages does not render,
`generatePageThumbnails` returns the empty list (and returns: nothing is
thrown to the caller), and `loadPagesForSplit` stores the empty sequence and
the empty selection. -/
theorem generatePageThumbnails_failure (pdfjsLib : PdfJs) (s : AppState) (pdfFile : PdfFile)
    (hfail : (∃ e, pdfjsLib.getDocument pdfFile.arrayBuffer = .error e) ∨
      ∃ pdf, pdfjsLib.getDocument pdfFile.arrayBuffer = .ok pdf ∧
        ∃ i, 1 ≤ i ∧ i ≤ pdf.numPages ∧ pageRenders pdf i = false) :
    generatePageThumbnails pdfjsLib pdfFile.arrayBuffer pdfFile.name pdfFile.id = [] ∧
      (loadPagesForSplit pdfjsLib s pdfFile).splitPages = [] ∧
      (loadPagesForSplit pdfjsLib s pdfFile).selectedPages = ∅ := by
  have hgen : generatePageThumbnails pdfjsLib pdfFile.arrayBuffer pdfFile.name pdfFile.id = [] := by
    rcases hfail with ⟨e, he⟩ | ⟨pdf, hdoc, i, hi1, hi2, hbad⟩
    · simp only [generatePageThumbnails, generatePageThumbnailsTry, he]
    · obtain ⟨e, he⟩ := thumbnailLoop_error pdf pdfFile.name pdfFile.id pdf.numPages
        (List.range' 1 pdf.numPages) [] ⟨i, by rw [List.mem_range'_1]; omega, hbad⟩
      simp only [generatePageThumbnails, generatePageThumbnailsTry, hdoc, he]
  exact ⟨hgen, by simp only [loadPagesForSplit, hgen], rfl⟩

/-! ## Lemmas on editing sessions -/

theorem mem_splice {α : Type} (l : List α) (start deleteCount : Nat) (items : List α) (x : α)
    (h : x ∈ splice l start deleteCount items) : x ∈ l ∨ x ∈ items := by
  unfold splice at h
  simp only [List.mem_append] at h
  rcases h with (h | h) | h
  · exact Or.inl (List.mem_of_mem_take h)
  · exact Or.inr h
  · exact Or.inl (List.mem_of_mem_drop h)

/-- `handleDrop` only moves descriptors: whatever is in the sequence afterwards
was in it before. -/
theorem handleDrop_mem (s s' : AppState) (dropIndex : Nat) (h : handleDrop s dropIndex = some s') :
    ∀ p ∈ s'.splitPages, p ∈ s.splitPages := by
  unfold handleDrop at h
  split at h
  · cases h; exact fun p hp => hp
  · split at h
    · cases h; exact fun p hp => hp
    · dsimp only at h
      split at h
      · exact Option.noConfusion h
      · rename_i draggedIndex _ draggedPage hdragged
        cases h
        intro p hp
        rcases mem_splice _ _ _ _ p hp with hp | hp
        · rcases mem_splice _ _ _ _ p hp with hp | hp
          · exact hp
          · simp at hp
        · rw [List.mem_singleton] at hp
          rw [hp]
          exact List.getElem?_mem hdragged

/-- `selectPageRange` never touches the page sequence. -/
theorem selectPageRange_splitPages (s s' : AppState) (h : selectPageRange s = .ok s') :
    s'.splitPages = s.splitPages := by
  unfold selectPageRange at h
  split at h
  · cases h; rfl
  · split at h
    · split at h
      · split at h
        · cases h; rfl
        · exact Except.noConfusion h
      · cases h; rfl
    · cases h; rfl

theorem applyAction_mem (s s' : AppState) (a : EditorAction) (h : applyAction s a = some s') :
    ∀ p ∈ s'.splitPages, p ∈ s.splitPages := by
  cases a with
  | selectPageRange =>
    simp only [applyAction] at h
    cases hsel : selectPageRange s with
    | error e => rw [hsel] at h; exact Option.noConfusion h
    | ok s1 =>
      rw [hsel] at h
      cases h
      rw [selectPageRange_splitPages s s' hsel]
      exact fun p hp => hp
  | handleDrop dropIndex => exact handleDrop_mem s s' dropIndex h
  | deleteSelectedPages =>
    cases h
    exact fun p hp => List.mem_of_mem_filter hp
  | handleDragEnter index =>
    cases h
    intro p hp
    unfold handleDragEnter at hp
    split at hp <;> exact hp
  | _ => cases h; exact fun p hp => hp

theorem runEditor_mem : ∀ (actions : List EditorAction) (s s' : AppState),
    runEditor s actions = some s' → ∀ p ∈ s'.splitPages, p ∈ s.splitPages
  | [], s, s', h => by cases h; exact fun p hp => hp
  | a :: rest, s, s', h => by
    unfold runEditor at h
    split at h
    · exact Option.noConfusion h
    · rename_i s1 hs1
      exact fun p hp => applyAction_mem s s1 a hs1 p (runEditor_mem rest s1 s' h p hp)

/-- A descriptor returned by `generatePageThumbnails` sits at the position its
page number names. -/
theorem generatePageThumbnails_position (pdfjsLib : PdfJs) (arrayBuffer : ArrayBuffer)
    (fileName : String) (pdfId : PdfId) (p : PageDescriptor)
    (hp : p ∈ generatePageThumbnails pdfjsLib arrayBuffer fileName pdfId) :
    1 ≤ p.pageNumber ∧
      p.pageNumber ≤ (generatePageThumbnails pdfjsLib arrayBuffer fileName pdfId).length ∧
      (generatePageThumbnails pdfjsLib arrayBuffer fileName pdfId)[p.pageNumber - 1]? = some p := by
  obtain ⟨hnum, _⟩ := generatePageThumbnails_shape pdfjsLib arrayBuffer fileName pdfId
  generalize generatePageThumbnails pdfjsLib arrayBuffer fileName pdfId = pages at hp hnum
  obtain ⟨k, hk, rfl⟩ := List.getElem_of_mem hp
  have hpn : (pages[k]).pageNumber = k + 1 := by
    have h1 : (pages.map (fun p => p.pageNumber))[k]? = (List.range' 1 pages.length)[k]? := by
      rw [hnum]
    rw [List.getElem?_map, List.getElem?_eq_getElem hk, List.getElem?_range' _ _ hk] at h1
    simp only [Option.map_some', Option.some.injEq] at h1
    omega
  refine ⟨by omega, by omega, ?_⟩
  rw [hpn, Nat.add_sub_cancel, List.getElem?_eq_getElem hk]

/-! ## Page numbers under editing -/

/-- C8: after loading a document and any session of editor actions, every
descriptor in the sequence is one that `loadPagesForSplit` produced, and it
still carries the page number, document id and id it was given there: the
loaded sequence holds this very descriptor at the 1-based position
`pageNumber`, whatever position it now has. -/
theorem pageNumber_stable (pdfjsLib : PdfJs) (s0 : AppState) (pdfFile : PdfFile)
    (actions : List EditorAction) (s' : AppState)
    (hrun : runEditor (loadPagesForSplit pdfjsLib s0 pdfFile) actions = some s') :
    ∀ p ∈ s'.splitPages,
      p ∈ (loadPagesForSplit pdfjsLib s0 pdfFile).splitPages ∧
      1 ≤ p.pageNumber ∧
      (loadPagesForSplit pdfjsLib s0 pdfFile).splitPages[p.pageNumber - 1]? = some p ∧
      p.pdfId = pdfFile.id ∧
      p.id = pdfFile.id ++ "-page-" ++ toString p.pageNumber := by
  intro p hp
  have hloaded := runEditor_mem actions _ s' hrun p hp
  have hpos := generatePageThumbnails_position pdfjsLib pdfFile.arrayBuffer pdfFile.name
    pdfFile.id p hloaded
  have hshape := (generatePageThumbnails_shape pdfjsLib pdfFile.arrayBuffer pdfFile.name
    pdfFile.id).2 p hloaded
  exact ⟨hloaded, hpos.1, hpos.2.2, hshape.1, hshape.2⟩

/-! ## Lemmas on assembling -/

theorem copyPages_single (src : PDFDocument) (n : Nat) (h1 : 1 ≤ n) (h2 : n ≤ src.pages.length) :
    ∃ page, src.pages[n - 1]? = some page ∧ copyPages src [(n : Int) - 1] = .ok [page] := by
  have hlt : n - 1 < src.pages.length := by omega
  refine ⟨src.pages[n - 1], List.getElem?_eq_getElem hlt, ?_⟩
  have hidx : jsIndex src.pages ((n : Int) - 1) = some (src.pages[n - 1]) := by
    unfold jsIndex
    rw [if_neg (by omega), ← List.getElem?_eq_getElem hlt]
    congr 1
    omega
  simp only [copyPages, hidx]

/-- The copy loop of `downloadAllPagesAsPDF` goes through when every page number
names a page of the source, and appends those pages in the order of the
descriptors. -/
theorem copyAllLoop_ok (sourcePdf : PDFDocument) :
    ∀ (pages : List PageDescriptor) (newPdf : PDFDocument),
      (∀ p ∈ pages, 1 ≤ p.pageNumber ∧ p.pageNumber ≤ sourcePdf.pages.length) →
      ∃ out, copyAllLoop sourcePdf pages newPdf = .ok out ∧
        out.pages.map some
          = newPdf.pages.map some ++ pages.map (fun p => sourcePdf.pages[p.pageNumber - 1]?)
  | [], newPdf, _ => ⟨newPdf, rfl, by simp⟩
  | page :: rest, newPdf, h => by
    have hp := h page (List.mem_cons_self _ _)
    obtain ⟨copied, hcopied, hcopy⟩ := copyPages_single sourcePdf page.pageNumber hp.1 hp.2
    obtain ⟨out, hout, hpages⟩ := copyAllLoop_ok sourcePdf rest (newPdf.addPage copied)
      (fun p hp => h p (List.mem_cons_of_mem _ hp))
    refine ⟨out, by simp only [copyAllLoop, hcopy, hout], ?_⟩
    rw [hpages]
    simp [PDFDocument.addPage, hcopied]

/-- What `downloadAllPagesAsPDF` does on a non-empty sequence whose document is
in the registry, loads, and has a page for every page number. -/
theorem downloadAllPagesAsPDF_ok (pdfLib : PdfLib) (s : AppState) (pdfFile : PdfFile)
    (sourcePdf : PDFDocument) (first : PageDescriptor) (rest : List PageDescriptor)
    (hpages : s.splitPages = first :: rest)
    (hfile : s.pdfFiles.find? (fun pdf => decide (pdf.id = first.pdfId)) = some pdfFile)
    (hload : pdfLib.load pdfFile.file.arrayBuffer = .ok sourcePdf)
    (hrange : ∀ p ∈ s.splitPages, 1 ≤ p.pageNumber ∧ p.pageNumber ≤ sourcePdf.pages.length) :
    ∃ newPdf,
      (downloadAllPagesAsPDF pdfLib s).2
        = [Effect.download (pdfLib.save newPdf) ("edited_" ++ pdfFile.name)] ∧
      newPdf.pages.length = s.splitPages.length ∧
      newPdf.pages.map some = s.splitPages.map (fun p => sourcePdf.pages[p.pageNumber - 1]?) := by
  obtain ⟨out, hout, hmap⟩ := copyAllLoop_ok sourcePdf s.splitPages PDFDocument.create hrange
  have hmap' : out.pages.map some
      = s.splitPages.map (fun p => sourcePdf.pages[p.pageNumber - 1]?) := by
    rw [hmap]; simp [PDFDocument.create]
  refine ⟨out, ?_, ?_, hmap'⟩
  · unfold downloadAllPagesAsPDF
    rw [hpages]
    simp only [downloadAllPagesTry, hfile, hload]
    rw [← hpages, hout]
  · have := congrArg List.length hmap'
    simpa using this

/-! ## Downloading all pages -/

/-- C10: on a non-empty sequence whose document is in the registry and loads,
with a source page for every recorded page number, `downloadAllPagesAsPDF`
downloads one document with as many pages as the sequence, whose `k`-th page is
the source page `pageNumber` of the `k`-th descriptor of the current sequence.
In particular, for a four-page document loaded and then reordered from
position 0 to position 3, the pages downloaded are the source pages 2, 3, 4, 1
in that order. -/
theorem downloadAllPagesAsPDF_current_order :
    (∀ (pdfLib : PdfLib) (s : AppState) (pdfFile : PdfFile) (sourcePdf : PDFDocument)
        (first : PageDescriptor),
      s.splitPages.head? = some first →
      s.pdfFiles.find? (fun pdf => decide (pdf.id = first.pdfId)) = some pdfFile →
      pdfLib.load pdfFile.file.arrayBuffer = .ok sourcePdf →
      (∀ p ∈ s.splitPages, 1 ≤ p.pageNumber ∧ p.pageNumber ≤ sourcePdf.pages.length) →
      ∃ newPdf,
        (downloadAllPagesAsPDF pdfLib s).2
          = [Effect.download (pdfLib.save newPdf) ("edited_" ++ pdfFile.name)] ∧
        newPdf.pages.length = s.splitPages.length ∧
        ∀ k, k < s.splitPages.length →
          ∃ p page, s.splitPages[k]? = some p ∧ sourcePdf.pages[p.pageNumber - 1]? = some page ∧
            newPdf.pages[k]? = some page) ∧
    (∀ (pdfjsLib : PdfJs) (pdfLib : PdfLib) (s0 : AppState) (pdfFile : PdfFile)
        (pdf : PDFDocumentProxy) (a b c d : PDFPage),
      pdfjsLib.getDocument pdfFile.arrayBuffer = .ok pdf →
      pdf.numPages = 4 →
      (∀ i, 1 ≤ i → i ≤ 4 → pageRenders pdf i = true) →
      s0.pdfFiles.find? (fun f => decide (f.id = pdfFile.id)) = some pdfFile →
      pdfLib.load pdfFile.file.arrayBuffer = .ok { pages := [a, b, c, d] } →
      ∃ s2, reorder (loadPagesForSplit pdfjsLib s0 pdfFile) 0 3 = some s2 ∧
        (downloadAllPagesAsPDF pdfLib s2).2
          = [Effect.download (pdfLib.save { pages := [b, c, d, a] }) ("edited_" ++ pdfFile.name)]) := by
  constructor
  · intro pdfLib s pdfFile sourcePdf first hfirst hfile hload hrange
    obtain ⟨rest, hpages⟩ : ∃ rest, s.splitPages = first :: rest := by
      cases hs : s.splitPages with
      | nil => rw [hs] at hfirst; exact Option.noConfusion hfirst
      | cons x rest =>
        rw [hs] at hfirst
        simp only [List.head?_cons, Option.some.injEq] at hfirst
        exact ⟨rest, by rw [hfirst]⟩
    obtain ⟨newPdf, heff, hlen, hmap⟩ :=
      downloadAllPagesAsPDF_ok pdfLib s pdfFile sourcePdf first rest hpages hfile hload hrange
    refine ⟨newPdf, heff, hlen, ?_⟩
    intro k hk
    have hr := hrange s.splitPages[k] (List.getElem_mem hk)
    have hk' : k < newPdf.pages.length := by omega
    have hlt : (s.splitPages[k]).pageNumber - 1 < sourcePdf.pages.length := by omega
    refine ⟨s.splitPages[k], sourcePdf.pages[(s.splitPages[k]).pageNumber - 1],
      List.getElem?_eq_getElem hk, List.getElem?_eq_getElem hlt, ?_⟩
    have h1 := congrArg (fun l => l[k]?) hmap
    simp only [List.getElem?_map, List.getElem?_eq_getElem hk, List.getElem?_eq_getElem hk',
      List.getElem?_eq_getElem hlt, Option.map_some', Option.some.injEq] at h1
    rw [List.getElem?_eq_getElem hk', h1]
  · intro pdfjsLib pdfLib s0 pdfFile pdf a b c d hdoc hnum hrender hfile hload
    have hlen := generatePageThumbnails_length pdfjsLib pdfFile.arrayBuffer pdfFile.name pdfFile.id
      pdf hdoc (by rw [hnum]; exact hrender)
    obtain ⟨hnums, hall⟩ := generatePageThumbnails_shape pdfjsLib pdfFile.arrayBuffer pdfFile.name
      pdfFile.id
    have hloaded : (loadPagesForSplit pdfjsLib s0 pdfFile).splitPages
        = generatePageThumbnails pdfjsLib pdfFile.arrayBuffer pdfFile.name pdfFile.id := rfl
    have hfiles : (loadPagesForSplit pdfjsLib s0 pdfFile).pdfFiles = s0.pdfFiles := rfl
    generalize loadPagesForSplit pdfjsLib s0 pdfFile = s1 at hloaded hfiles
    rw [← hloaded] at hlen hnums hall
    rw [hnum] at hlen
    match hs1 : s1.splitPages, hlen with
    | [p1, p2, p3, p4], _ =>
      rw [hs1] at hnums hall
      simp only [List.map_cons, List.map_nil, List.length_cons, List.length_nil, List.range',
        List.cons.injEq, and_true] at hnums
      obtain ⟨h1, h2, h3, h4⟩ := hnums
      obtain ⟨s2, hs2, hpages2, _, hfiles2⟩ := reorder_of_lt s1 0 3 (by rw [hs1]; simp)
        (by rw [hs1]; simp)
      have hpages2' : s2.splitPages = [p2, p3, p4, p1] := by
        rw [hpages2]; simp [hs1]
      have hfile2 : s2.pdfFiles.find? (fun f => decide (f.id = p2.pdfId)) = some pdfFile := by
        rw [hfiles2, hfiles, (hall p2 (by simp)).1]
        exact hfile
      obtain ⟨newPdf, heff, _, hmap⟩ := downloadAllPagesAsPDF_ok pdfLib s2 pdfFile
        { pages := [a, b, c, d] } p2 [p3, p4, p1] hpages2' hfile2 hload (by
          rw [hpages2']
          intro p hp
          simp only [List.mem_cons, List.mem_singleton, List.not_mem_nil, or_false] at hp
          rcases hp with rfl | rfl | rfl | rfl <;> simp <;> omega)
      refine ⟨s2, hs2, ?_⟩
      rw [heff]
      have hpg : newPdf.pages = [b, c, d, a] := by
        rw [hpages2'] at hmap
        simp only [List.map_cons, List.map_nil, h1, h2, h3, h4] at hmap
        have hsome : newPdf.pages.map some = [b, c, d, a].map some := by simpa using hmap
        exact List.map_injective_iff.mpr (Option.some_injective _) hsome
      have hnew : newPdf = { pages := [b, c, d, a] } := by
        cases newPdf
        simp only [PDFDocument.mk.injEq]
        exact hpg
      rw [hnew]

/-! ## The theorems at sample inputs -/

theorem reorderAll_preserves_ids_witness :
    (∀ st ∈ [(0, 3), (2, 1), (1, 1)],
        st.1 < sampleState.splitPages.length ∧ st.2 < sampleState.splitPages.length) ∧
      ∃ s', reorderAll sampleState [(0, 3), (2, 1), (1, 1)] = some s' ∧
        Multiset.ofList (s'.splitPages.map (fun p => p.id))
          = Multiset.ofList (sampleState.splitPages.map (fun p => p.id)) ∧
        s'.splitPages.Perm sampleState.splitPages ∧
        s'.splitPages.length = sampleState.splitPages.length :=
  ⟨by decide, reorderAll_preserves_ids sampleState [(0, 3), (2, 1), (1, 1)] (by decide)⟩

theorem selectPageRange_invalid_noop_witness :
    parseInt "3" = some 3 ∧ parseInt "2" = some 2 ∧ (3 : Int) > 2 ∧
      selectPageRange { sampleState with rangeStart := "3", rangeEnd := "2" }
        = .ok { sampleState with rangeStart := "3", rangeEnd := "2" } :=
  ⟨by decide, by decide, by decide,
    selectPageRange_invalid_noop { sampleState with rangeStart := "3", rangeEnd := "2" } 3 2
      (by decide) (by decide) (by decide)⟩

theorem selectPageRange_adds_range_witness :
    parseInt "2" = some 2 ∧ parseInt "3" = some 3 ∧ sampleState.splitPages.length = 4 ∧
      ∃ s', selectPageRange { sampleState with rangeStart := "2", rangeEnd := "3" } = .ok s' ∧
        s'.splitPages = sampleState.splitPages ∧
        ∀ x, x ∈ s'.selectedPages ↔
          x ∈ sampleState.selectedPages ∨
          ∃ i : Nat, (2 : Int) ≤ (i : Int) ∧ (i : Int) ≤ 3 ∧
            ∃ p, sampleState.splitPages[i - 1]? = some p ∧ p.id = x :=
  ⟨by decide, by decide, by decide,
    selectPageRange_adds_range { sampleState with rangeStart := "2", rangeEnd := "3" } 2 3
      (by decide) (by decide) (by decide) (by decide) (by decide)⟩

theorem generatePageThumbnails_all_pages_witness :
    (generatePageThumbnails samplePdfJs [10, 20, 30, 40] "report.pdf" "1730000000000.25").length = 4 ∧
      (generatePageThumbnails samplePdfJs [10, 20, 30, 40] "report.pdf" "1730000000000.25").map
          (fun p => p.pageNumber) = [1, 2, 3, 4] :=
  have h := generatePageThumbnails_all_pages samplePdfJs [10, 20, 30, 40] "report.pdf"
    "1730000000000.25" _ rfl (fun _ _ _ => rfl)
  ⟨h.1, h.2.1⟩

theorem generatePageThumbnails_failure_witness :
    pageRenders (failingDocument 4) 3 = false ∧
      generatePageThumbnails failingPdfJs sampleFile.arrayBuffer sampleFile.name sampleFile.id = [] ∧
      (loadPagesForSplit failingPdfJs sampleState sampleFile).splitPages = [] ∧
      (loadPagesForSplit failingPdfJs sampleState sampleFile).selectedPages = ∅ :=
  ⟨rfl, generatePageThumbnails_failure failingPdfJs sampleState sampleFile
    (Or.inr ⟨_, rfl, 3, by decide, by decide, rfl⟩)⟩

theorem pageNumber_stable_witness :
    ∃ s', runEditor (loadPagesForSplit samplePdfJs sampleUploaded sampleFile) sampleSession
        = some s' ∧
      s'.splitPages.length = 3 ∧
      ∀ p ∈ s'.splitPages,
        p ∈ (loadPagesForSplit samplePdfJs sampleUploaded sampleFile).splitPages ∧
        1 ≤ p.pageNumber ∧
        (loadPagesForSplit samplePdfJs sampleUploaded sampleFile).splitPages[p.pageNumber - 1]?
          = some p ∧
        p.pdfId = sampleFile.id ∧
        p.id = sampleFile.id ++ "-page-" ++ toString p.pageNumber :=
  ⟨_, rfl, rfl, pageNumber_stable samplePdfJs sampleUploaded sampleFile sampleSession _ rfl⟩

theorem handleDrop_moves_page_witness :
    0 < sampleState.splitPages.length ∧ 3 < sampleState.splitPages.length ∧
      ∃ s', reorder sampleState 0 3 = some s' ∧
        s'.splitPages
          = (sampleState.splitPages.eraseIdx 0).insertIdx 3 (sampleState.splitPages[0]) ∧
        s'.splitPages[3]? = some (sampleState.splitPages[0]) ∧
        s'.splitPages.eraseIdx 3 = sampleState.splitPages.eraseIdx 0 ∧
        (0 = 3 → s'.splitPages = sampleState.splitPages) ∧
        s'.selectedPages = sampleState.selectedPages :=
  ⟨by decide, by decide, handleDrop_moves_page sampleState 0 3 (by decide) (by decide)⟩

theorem downloadAllPagesAsPDF_current_order_witness :
    ∃ s2, reorder (loadPagesForSplit samplePdfJs sampleUploaded sampleFile) 0 3 = some s2 ∧
      (downloadAllPagesAsPDF samplePdfLib s2).2
        = [Effect.download
            (samplePdfLib.save { pages := [⟨"20"⟩, ⟨"30"⟩, ⟨"40"⟩, ⟨"10"⟩] })
            ("edited_" ++ sampleFile.name)] :=
  downloadAllPagesAsPDF_current_order.2 samplePdfJs samplePdfLib sampleUploaded sampleFile _
    ⟨"10"⟩ ⟨"20"⟩ ⟨"30"⟩ ⟨"40"⟩ rfl rfl (fun _ _ _ => rfl) rfl rfl

/-! ## Lemmas on selection and on the editor screen -/

theorem length_splice {α : Type} (l : List α) (start deleteCount : Nat) (items : List α) :
    (splice l start deleteCount items).length
      = l.length - min deleteCount (l.length - min start l.length) + items.length := by
  unfold splice
  simp only [List.length_append, List.length_take, List.length_drop]
  omega

/-- `handleDrop` goes through and keeps the number of pages whenever the drag, if
one is under way, started on a tile of the sequence; the drop index is free. -/
theorem handleDrop_length (s : AppState) (dropIndex : Nat)
    (hdrag : ∀ i, s.draggedIndex = some i → i < s.splitPages.length) :
    ∃ s', handleDrop s dropIndex = some s' ∧ s'.splitPages.length = s.splitPages.length ∧
      s'.currentView = s.currentView := by
  unfold handleDrop
  split
  · exact ⟨_, rfl, rfl, rfl⟩
  · rename_i draggedIndex hd
    have hi := hdrag draggedIndex hd
    split
    · exact ⟨_, rfl, rfl, rfl⟩
    · simp only [List.getElem?_eq_getElem hi]
      refine ⟨_, rfl, ?_, rfl⟩
      simp only [length_splice, List.length_singleton, List.length_nil]
      omega

/-- `selectPageRange` always returns: the guard keeps every index it reads
inside the array.  It only ever adds ids of descriptors of the sequence. -/
theorem selectPageRange_total (s : AppState) :
    ∃ s', selectPageRange s = .ok s' ∧ s'.splitPages = s.splitPages ∧
      s'.currentView = s.currentView ∧ s'.pdfFiles = s.pdfFiles ∧
      ∀ x, x ∈ s'.selectedPages → x ∈ s.selectedPages ∨ ∃ p ∈ s.splitPages, p.id = x := by
  unfold selectPageRange
  split
  · exact ⟨s, rfl, rfl, rfl, rfl, fun x hx => Or.inl hx⟩
  · split
    · rename_i start stop _ _
      split
      · rename_i hguard
        have hvalues : ∀ i ∈ rangeValues start stop, 1 ≤ i ∧ i ≤ (s.splitPages.length : Int) := by
          intro i hi
          rw [mem_rangeValues] at hi
          omega
        obtain ⟨sel', hrun, hmem⟩ :=
          selectRangeLoop_ok s.splitPages (rangeValues start stop) s.selectedPages hvalues
        rw [hrun]
        refine ⟨_, rfl, rfl, rfl, rfl, ?_⟩
        intro x hx
        rcases (hmem x).mp hx with h | ⟨i, _, p, hp, rfl⟩
        · exact Or.inl h
        · refine Or.inr ⟨p, ?_, rfl⟩
          unfold jsIndex at hp
          split at hp
          · exact Option.noConfusion hp
          · exact List.getElem?_mem hp
      · exact ⟨s, rfl, rfl, rfl, rfl, fun x hx => Or.inl hx⟩
    · exact ⟨s, rfl, rfl, rfl, rfl, fun x hx => Or.inl hx⟩

theorem isSplitEdit_iff (s : AppState) :
    isSplitEdit s = true ↔ s.currentView = View.split ∧ s.splitPages ≠ [] := by
  simp [isSplitEdit]

/-! ## Navigation and toggling -/

/-- C13: from every state, `goBackToLanding` yields a state whose view is the
landing screen and whose registry, page sequence and selection are empty. -/
theorem goBackToLanding_resets (s : AppState) :
    (goBackToLanding s).currentView = View.landing ∧
      (goBackToLanding s).pdfFiles = [] ∧
      (goBackToLanding s).splitPages = [] ∧
      (goBackToLanding s).selectedPages = ∅ :=
  ⟨rfl, rfl, rfl, rfl⟩

/-- C15: `togglePageSelection x` makes `x` a member exactly when it was not one,
leaves the membership of every other id alone, never changes the page
sequence, and applied twice gives the selection back. -/
theorem togglePageSelection_flips (s : AppState) (x : String) :
    (x ∈ (togglePageSelection s x).selectedPages ↔ x ∉ s.selectedPages) ∧
      (∀ y, y ≠ x → (y ∈ (togglePageSelection s x).selectedPages ↔ y ∈ s.selectedPages)) ∧
      (togglePageSelection (togglePageSelection s x) x).selectedPages = s.selectedPages ∧
      (togglePageSelection s x).splitPages = s.splitPages ∧
      togglePageSelection (togglePageSelection s x) x = s := by
  have h1 : x ∈ (togglePageSelection s x).selectedPages ↔ x ∉ s.selectedPages := by
    by_cases hx : x ∈ s.selectedPages <;> simp [togglePageSelection, hx]
  have h2 : ∀ y, y ≠ x →
      (y ∈ (togglePageSelection s x).selectedPages ↔ y ∈ s.selectedPages) := by
    intro y hy
    by_cases hx : x ∈ s.selectedPages <;> simp [togglePageSelection, hx, hy]
  have h3 : (togglePageSelection (togglePageSelection s x) x).selectedPages
      = s.selectedPages := by
    by_cases hx : x ∈ s.selectedPages
    · simp [togglePageSelection, hx, Finset.insert_erase]
    · simp [togglePageSelection, hx, Finset.erase_insert]
  refine ⟨h1, h2, h3, rfl, ?_⟩
  have h4 : togglePageSelection (togglePageSelection s x) x
      = { s with selectedPages :=
            (togglePageSelection (togglePageSelection s x) x).selectedPages } := rfl
  rw [h4, h3]

/-- C14, as the code has it: in the split editor, `togglePageSelection`,
`selectPageRange`, `selectAllPages`, `deselectAllPages` and `handleDrop` (for a
drag started on a tile) all end in the split editor, and
`deleteSelectedPages` ends in the split editor exactly when some descriptor
has an unselected id; when every descriptor is selected it ends on the
document chooser. -/
theorem editor_operations_stay_in_editor (s : AppState) (hedit : isSplitEdit s = true) :
    (∀ x, isSplitEdit (togglePageSelection s x) = true) ∧
      (∃ s', selectPageRange s = .ok s' ∧ isSplitEdit s' = true) ∧
      isSplitEdit (selectAllPages s) = true ∧
      isSplitEdit (deselectAllPages s) = true ∧
      (∀ dropIndex, (∀ i, s.draggedIndex = some i → i < s.splitPages.length) →
        ∃ s', handleDrop s dropIndex = some s' ∧ isSplitEdit s' = true) ∧
      (isSplitEdit (deleteSelectedPages s) = true ↔ ∃ p ∈ s.splitPages, p.id ∉ s.selectedPages) ∧
      ((∀ p ∈ s.splitPages, p.id ∈ s.selectedPages) →
        isSplitSelect (deleteSelectedPages s) = true) := by
  have hview := ((isSplitEdit_iff s).mp hedit).1
  have hne := ((isSplitEdit_iff s).mp hedit).2
  refine ⟨fun x => hedit, ?_, hedit, hedit, ?_, ?_, ?_⟩
  · obtain ⟨s', hrun, hpages, hv, _⟩ := selectPageRange_total s
    exact ⟨s', hrun, (isSplitEdit_iff s').mpr ⟨by rw [hv, hview], by rw [hpages]; exact hne⟩⟩
  · intro dropIndex hdrag
    obtain ⟨s', hrun, hlen, hv⟩ := handleDrop_length s dropIndex hdrag
    refine ⟨s', hrun, (isSplitEdit_iff s').mpr ⟨by rw [hv, hview], ?_⟩⟩
    intro hnil
    rw [hnil] at hlen
    exact hne (List.length_eq_zero.mp hlen.symm)
  · rw [isSplitEdit_iff]
    simp only [deleteSelectedPages, hview, true_and, ne_eq, List.filter_eq_nil_iff, not_forall]
    simp
  · intro hall
    simp only [isSplitSelect, deleteSelectedPages, hview, decide_True, Bool.true_and,
      decide_eq_true_eq, List.length_eq_zero, List.filter_eq_nil_iff]
    intro p hp
    simp [hall p hp]

/-- C14 as stated fails: with every page selected, `deleteSelectedPages` takes
the split editor to the document chooser. -/
theorem deleteSelectedPages_leaves_editor :
    isSplitEdit sampleAllSelected = true ∧
      isSplitEdit (deleteSelectedPages sampleAllSelected) = false ∧
      isSplitSelect (deleteSelectedPages sampleAllSelected) = true := by
  decide

theorem editor_operations_stay_in_editor_witness :
    isSplitEdit sampleSelected = true ∧
      (∃ s', selectPageRange sampleSelected = .ok s' ∧ isSplitEdit s' = true) ∧
      isSplitEdit (deleteSelectedPages sampleSelected) = true :=
  have h := editor_operations_stay_in_editor sampleSelected (by decide)
  ⟨by decide, h.2.1, h.2.2.2.2.2.1.mpr ⟨sampleSelected.splitPages[1], by decide, by decide⟩⟩

/-! ## Lemmas on the selected-pages download -/

/-- A non-empty selection inside the page sequence forces a first page. -/
theorem first_of_selection (s : AppState) (hsel : s.selectedPages.card ≠ 0)
    (hwithin : selectionWithinPages s) : ∃ first, s.splitPages[0]? = some first := by
  obtain ⟨x, hx⟩ := Finset.card_pos.mp (Nat.pos_of_ne_zero hsel)
  have hx' := hwithin hx
  rw [List.mem_toFinset, List.mem_map] at hx'
  obtain ⟨p, hp, _⟩ := hx'
  cases hpages : s.splitPages with
  | nil => rw [hpages] at hp; simp at hp
  | cons first rest => exact ⟨first, by simp⟩

theorem findPdfFile_of_first (pdfFiles : List PdfFile) (splitPages : List PageDescriptor)
    (first : PageDescriptor) (pdfFile : PdfFile) (hfirst : splitPages[0]? = some first)
    (hfile : pdfFiles.find? (fun pdf => decide (pdf.id = first.pdfId)) = some pdfFile) :
    findPdfFile pdfFiles splitPages = .ok (some pdfFile) := by
  unfold findPdfFile
  cases pdfFiles with
  | nil => simp at hfile
  | cons f rest => simp only [hfirst, hfile]

/-- With a first page to read, the registry lookup of the download handlers does
not throw. -/
theorem findPdfFile_defined (pdfFiles : List PdfFile) (splitPages : List PageDescriptor)
    (first : PageDescriptor) (hfirst : splitPages[0]? = some first) :
    ∃ r, findPdfFile pdfFiles splitPages = .ok r := by
  unfold findPdfFile
  cases pdfFiles with
  | nil => exact ⟨none, rfl⟩
  | cons f rest => simp only [hfirst]; exact ⟨_, rfl⟩

/-- The copy loop of `downloadSelectedAsOnePDF` goes through when every selected
descriptor names a page of the source; it appends the pages of the selected
descriptors, in the order of the sequence, and nothing for the others. -/
theorem copySelectedLoop_ok (sourcePdf : PDFDocument) (sel : Finset String) :
    ∀ (pages : List PageDescriptor) (newPdf : PDFDocument),
      (∀ p ∈ pages, p.id ∈ sel → 1 ≤ p.pageNumber ∧ p.pageNumber ≤ sourcePdf.pages.length) →
      ∃ out, copySelectedLoop sourcePdf sel pages newPdf = .ok out ∧
        out.pages.map some
          = newPdf.pages.map some ++
            (pages.filter (fun p => decide (p.id ∈ sel))).map
              (fun p => sourcePdf.pages[p.pageNumber - 1]?)
  | [], newPdf, _ => ⟨newPdf, rfl, by simp⟩
  | page :: rest, newPdf, h => by
    by_cases hin : page.id ∈ sel
    · have hp := h page (List.mem_cons_self _ _) hin
      obtain ⟨copied, hcopied, hcopy⟩ := copyPages_single sourcePdf page.pageNumber hp.1 hp.2
      obtain ⟨out, hout, hpages⟩ := copySelectedLoop_ok sourcePdf sel rest (newPdf.addPage copied)
        (fun p hp => h p (List.mem_cons_of_mem _ hp))
      refine ⟨out, by simp only [copySelectedLoop, hin, if_true, hcopy, hout], ?_⟩
      rw [hpages]
      simp [PDFDocument.addPage, hcopied, hin]
    · obtain ⟨out, hout, hpages⟩ := copySelectedLoop_ok sourcePdf sel rest newPdf
        (fun p hp => h p (List.mem_cons_of_mem _ hp))
      refine ⟨out, by simp only [copySelectedLoop, hin, if_false, hout], ?_⟩
      rw [hpages]
      simp [hin]

/-! ## Downloading the selected pages as one document -/

/-- C11: with a non-empty selection of ids of the sequence, the document of the
sequence in the registry and loading, and a source page for every selected
page number, `downloadSelectedAsOnePDF` downloads one document whose pages are
the source pages `pageNumber` of the descriptors with a selected id, taken in
the order of the current sequence; descriptors with an unselected id add no
page, so the page count is the number of descriptors with a selected id. -/
theorem downloadSelectedAsOnePDF_current_order (pdfLib : PdfLib) (s : AppState)
    (pdfFile : PdfFile) (sourcePdf : PDFDocument)
    (hsel : s.selectedPages.card ≠ 0) (hwithin : selectionWithinPages s)
    (hfile : ∀ first, s.splitPages[0]? = some first →
      s.pdfFiles.find? (fun pdf => decide (pdf.id = first.pdfId)) = some pdfFile)
    (hload : pdfLib.load pdfFile.file.arrayBuffer = .ok sourcePdf)
    (hrange : ∀ p ∈ s.splitPages, p.id ∈ s.selectedPages →
      1 ≤ p.pageNumber ∧ p.pageNumber ≤ sourcePdf.pages.length) :
    ∃ newPdf,
      (downloadSelectedAsOnePDF pdfLib s).2
        = [Effect.download (pdfLib.save newPdf)
            (jsReplace pdfFile.name ".pdf" "" ++ "_selected.pdf")] ∧
      newPdf.pages.map some
        = (s.splitPages.filter (fun p => decide (p.id ∈ s.selectedPages))).map
            (fun p => sourcePdf.pages[p.pageNumber - 1]?) ∧
      newPdf.pages.length
        = (s.splitPages.filter (fun p => decide (p.id ∈ s.selectedPages))).length := by
  obtain ⟨first, hfirst⟩ := first_of_selection s hsel hwithin
  have hfind := findPdfFile_of_first s.pdfFiles s.splitPages first pdfFile hfirst
    (hfile first hfirst)
  obtain ⟨out, hout, hmap⟩ :=
    copySelectedLoop_ok sourcePdf s.selectedPages s.splitPages PDFDocument.create hrange
  have hmap' : out.pages.map some
      = (s.splitPages.filter (fun p => decide (p.id ∈ s.selectedPages))).map
          (fun p => sourcePdf.pages[p.pageNumber - 1]?) := by
    rw [hmap]; simp [PDFDocument.create]
  refine ⟨out, ?_, hmap', ?_⟩
  · unfold downloadSelectedAsOnePDF
    rw [if_neg hsel]
    simp only [downloadSelectedAsOneTry, hfind, hload, hout]
  · have := congrArg List.length hmap'
    simpa using this

/-! ## The selection stays inside the sequence -/

theorem within_of_empty (s : AppState) (h : s.selectedPages = ∅) : selectionWithinPages s := by
  unfold selectionWithinPages
  rw [h]
  exact Finset.empty_subset _

/-- Every user action keeps the selection inside the page sequence. -/
theorem applyUserAction_within (pdfjsLib : PdfJs) (s s' : AppState) (a : UserAction)
    (hwithin : selectionWithinPages s) (h : applyUserAction pdfjsLib s a = some s') :
    selectionWithinPages s' := by
  cases a with
  | setCurrentView view => cases h; exact hwithin
  | loadPagesForSplit pdfFile => cases h; exact within_of_empty _ rfl
  | clickTile index =>
    simp only [applyUserAction] at h
    split at h
    · exact Option.noConfusion h
    · rename_i page hpage
      cases h
      have hmem : page.id ∈ (s.splitPages.map (fun p => p.id)).toFinset := by
        rw [List.mem_toFinset, List.mem_map]
        exact ⟨page, List.getElem?_mem hpage, rfl⟩
      intro x hx
      simp only [togglePageSelection] at hx
      split at hx
      · exact hwithin (Finset.mem_of_mem_erase hx)
      · rcases Finset.mem_insert.mp hx with rfl | hx
        · exact hmem
        · exact hwithin hx
  | setRangeStart value => cases h; exact hwithin
  | setRangeEnd value => cases h; exact hwithin
  | selectPageRange =>
    obtain ⟨s1, hrun, hpages, _, _, hmem⟩ := selectPageRange_total s
    simp only [applyUserAction, hrun] at h
    cases h
    intro x hx
    unfold selectionWithinPages at hwithin
    rw [hpages]
    rcases hmem x hx with h1 | ⟨p, hp, rfl⟩
    · exact hwithin h1
    · rw [List.mem_toFinset, List.mem_map]
      exact ⟨p, hp, rfl⟩
  | selectAllPages => cases h; exact Finset.Subset.refl _
  | deselectAllPages => cases h; exact within_of_empty _ rfl
  | deleteSelectedPages => cases h; exact within_of_empty _ rfl
  | dragAndDrop fromIndex toIndex =>
    simp only [applyUserAction] at h
    split at h
    · rename_i hlt
      obtain ⟨s1, hrun, hpages, hsel, _⟩ := reorder_of_lt s fromIndex toIndex hlt.1 hlt.2
      rw [hrun] at h
      cases h
      have hperm := moved_perm s.splitPages fromIndex toIndex hlt.1 hlt.2
      rw [← hpages] at hperm
      intro x hx
      rw [hsel] at hx
      have hx' := hwithin hx
      rw [List.mem_toFinset, List.mem_map] at hx' ⊢
      obtain ⟨p, hp, hid⟩ := hx'
      exact ⟨p, hperm.mem_iff.mpr hp, hid⟩
    · exact Option.noConfusion h
  | backToPdfs => cases h; exact within_of_empty _ rfl
  | goBackToLanding => cases h; exact within_of_empty _ rfl

theorem runUser_within (pdfjsLib : PdfJs) : ∀ (actions : List UserAction) (s s' : AppState),
    selectionWithinPages s → runUser pdfjsLib s actions = some s' → selectionWithinPages s'
  | [], s, s', hwithin, h => by cases h; exact hwithin
  | a :: rest, s, s', hwithin, h => by
    unfold runUser at h
    split at h
    · exact Option.noConfusion h
    · rename_i s1 hs1
      exact runUser_within pdfjsLib rest s1 s'
        (applyUserAction_within pdfjsLib s s1 a hwithin hs1) h

/-- C17: in every state reached from a state with an empty selection (the
initial state, with its empty sequence, in particular) by user actions
(loading, clicking a tile, range selection, select all, deselect all, delete,
drag and drop between tiles, back, reset), every
selected id is the id of a descriptor of the sequence; so a non-empty
selection comes with a non-empty sequence, `splitPages[0]` is defined, and
the registry lookup of `downloadSelectedPages` and `downloadSelectedAsOnePDF`
does not throw. -/
theorem selection_within_pages (pdfjsLib : PdfJs) (s0 : AppState) (actions : List UserAction)
    (s : AppState) (hsel : s0.selectedPages = ∅)
    (hrun : runUser pdfjsLib s0 actions = some s) :
    (∀ x ∈ s.selectedPages, ∃ p ∈ s.splitPages, p.id = x) ∧
      (s.selectedPages.card ≠ 0 → s.splitPages ≠ []) ∧
      (s.selectedPages.card ≠ 0 → ∃ first, s.splitPages[0]? = some first) ∧
      (s.selectedPages.card ≠ 0 → ∃ r, findPdfFile s.pdfFiles s.splitPages = .ok r) := by
  have hwithin := runUser_within pdfjsLib actions s0 s (within_of_empty s0 hsel) hrun
  refine ⟨?_, ?_, fun hne => first_of_selection s hne hwithin, ?_⟩
  · intro x hx
    have hx' := hwithin hx
    rw [List.mem_toFinset, List.mem_map] at hx'
    exact hx'
  · intro hne hnil
    obtain ⟨first, hfirst⟩ := first_of_selection s hne hwithin
    rw [hnil] at hfirst
    simp at hfirst
  · intro hne
    obtain ⟨first, hfirst⟩ := first_of_selection s hne hwithin
    exact findPdfFile_defined s.pdfFiles s.splitPages first hfirst

/-! ## Lemmas on merging -/

theorem copyPages_range (src : PDFDocument) :
    ∀ (m k : Nat), k + m ≤ src.pages.length →
      copyPages src ((List.range' k m).map (fun (i : Nat) => (i : Int)))
        = .ok ((src.pages.drop k).take m)
  | 0, k, _ => by simp [copyPages]
  | m + 1, k, h => by
    have hk : k < src.pages.length := by omega
    have hidx : jsIndex src.pages ((k : Nat) : Int) = some (src.pages[k]) := by
      unfold jsIndex
      rw [if_neg (by omega)]
      simp [List.getElem?_eq_getElem hk]
    have ih := copyPages_range src m (k + 1) (by omega)
    rw [List.range'_succ, List.map_cons]
    simp only [copyPages, hidx, ih]
    rw [List.drop_eq_getElem_cons hk, List.take_succ_cons]

/-- Copying the pages at `getPageIndices()` gives all the pages, in order. -/
theorem copyPages_all (src : PDFDocument) :
    copyPages src src.getPageIndices = .ok src.pages := by
  unfold PDFDocument.getPageIndices PDFDocument.getPageCount
  rw [List.range_eq_range', copyPages_range src src.pages.length 0 (by omega)]
  simp

theorem foldl_addPage : ∀ (copied : List PDFPage) (doc : PDFDocument),
    (copied.foldl (fun doc page => doc.addPage page) doc).pages = doc.pages ++ copied
  | [], doc => by simp
  | page :: rest, doc => by
    rw [List.foldl_cons, foldl_addPage rest (doc.addPage page)]
    simp [PDFDocument.addPage]

/-- The loop of `mergePDFs` goes through when every document of the registry
loads, and appends the pages of each, document after document. -/
theorem mergeLoop_ok (pdfLib : PdfLib) :
    ∀ (files : List PdfFile) (docs : List PDFDocument) (mergedPdf : PDFDocument),
      List.Forall₂ (fun f d => pdfLib.load f.file.arrayBuffer = .ok d) files docs →
      ∃ out, mergeLoop pdfLib files mergedPdf = .ok out ∧
        out.pages = mergedPdf.pages ++ (docs.map (fun d => d.pages)).flatten
  | [], _, mergedPdf, h => by
    cases h
    exact ⟨mergedPdf, rfl, by simp⟩
  | f :: files, _, mergedPdf, h => by
    cases h with
    | cons hload hrest =>
      rename_i d docs
      obtain ⟨out, hout, hpages⟩ := mergeLoop_ok pdfLib files docs
        (d.pages.foldl (fun doc page => doc.addPage page) mergedPdf) hrest
      refine ⟨out, by simp only [mergeLoop, hload, copyPages_all, hout], ?_⟩
      rw [hpages, foldl_addPage]
      simp

/-- What `mergePDFs` does on a non-empty registry whose documents all load. -/
theorem mergePDFs_ok (pdfLib : PdfLib) (s : AppState) (docs : List PDFDocument)
    (hne : s.pdfFiles ≠ [])
    (hload : List.Forall₂ (fun f d => pdfLib.load f.file.arrayBuffer = .ok d) s.pdfFiles docs) :
    ∃ mergedPdf,
      (mergePDFs pdfLib s).2 = [Effect.download (pdfLib.save mergedPdf) "merged.pdf"] ∧
      mergedPdf.pages = (docs.map (fun d => d.pages)).flatten := by
  obtain ⟨out, hout, hpages⟩ := mergeLoop_ok pdfLib s.pdfFiles docs PDFDocument.create hload
  refine ⟨out, ?_, by rw [hpages]; simp [PDFDocument.create]⟩
  unfold mergePDFs
  rw [if_neg (by simpa using hne)]
  simp only [hout]

/-- Uploading one PDF file whose bytes load appends one entry to the registry. -/
theorem handleFileUpload_one (pdfLib : PdfLib) (pdfIds : Nat → PdfId) (s : AppState)
    (file : File) (doc : PDFDocument) (htype : file.type = "application/pdf")
    (hload : pdfLib.load file.arrayBuffer = .ok doc) :
    handleFileUpload pdfLib pdfIds s [file]
      = .ok { s with
          pdfFiles := s.pdfFiles ++ [{ id := pdfIds 0, name := file.name, file := file,
                                       pdfDoc := doc, pageCount := doc.pages.length,
                                       arrayBuffer := file.arrayBuffer }],
          isProcessing := false } := by
  simp [handleFileUpload, uploadLoop, htype, hload, PDFDocument.getPageCount]

/-! ## Merging -/

/-- C12: on a non-empty registry whose documents all load, `mergePDFs` downloads
`merged.pdf`, one document whose page list is the concatenation of the page
lists of the documents, each in its own order, taken in registry order; its
page count is the sum of their page counts.  With a three-page document A
uploaded before a two-page document B, the registry is A then B and the
output has five pages, the three of A and then the two of B. -/
theorem mergePDFs_concatenates :
    (∀ (pdfLib : PdfLib) (s : AppState) (docs : List PDFDocument),
      s.pdfFiles ≠ [] →
      List.Forall₂ (fun f d => pdfLib.load f.file.arrayBuffer = .ok d) s.pdfFiles docs →
      ∃ mergedPdf,
        (mergePDFs pdfLib s).2 = [Effect.download (pdfLib.save mergedPdf) "merged.pdf"] ∧
        mergedPdf.pages = (docs.map (fun d => d.pages)).flatten ∧
        mergedPdf.pages.length = (docs.map (fun d => d.getPageCount)).sum) ∧
    (∀ (pdfLib : PdfLib) (idsA idsB : Nat → PdfId) (s0 : AppState) (fileA fileB : File)
        (a1 a2 a3 b1 b2 : PDFPage),
      s0.pdfFiles = [] →
      fileA.type = "application/pdf" → fileB.type = "application/pdf" →
      pdfLib.load fileA.arrayBuffer = .ok { pages := [a1, a2, a3] } →
      pdfLib.load fileB.arrayBuffer = .ok { pages := [b1, b2] } →
      ∃ sA sB, handleFileUpload pdfLib idsA s0 [fileA] = .ok sA ∧
        handleFileUpload pdfLib idsB sA [fileB] = .ok sB ∧
        sB.pdfFiles.map (fun f => (f.file, f.pageCount)) = [(fileA, 3), (fileB, 2)] ∧
        (mergePDFs pdfLib sB).2
          = [Effect.download (pdfLib.save { pages := [a1, a2, a3, b1, b2] }) "merged.pdf"]) := by
  constructor
  · intro pdfLib s docs hne hload
    obtain ⟨mergedPdf, heff, hpages⟩ := mergePDFs_ok pdfLib s docs hne hload
    refine ⟨mergedPdf, heff, hpages, ?_⟩
    rw [hpages, List.length_flatten, List.map_map]
    rfl
  · intro pdfLib idsA idsB s0 fileA fileB a1 a2 a3 b1 b2 hempty htA htB hloadA hloadB
    have hA := handleFileUpload_one pdfLib idsA s0 fileA _ htA hloadA
    refine ⟨_, _, hA, handleFileUpload_one pdfLib idsB _ fileB _ htB hloadB, ?_, ?_⟩
    · simp [hempty]
    · obtain ⟨mergedPdf, heff, hpages⟩ := mergePDFs_ok pdfLib
        { s0 with
          pdfFiles := (s0.pdfFiles ++ [{ id := idsA 0, name := fileA.name, file := fileA,
                                         pdfDoc := { pages := [a1, a2, a3] },
                                         pageCount := 3,
                                         arrayBuffer := fileA.arrayBuffer }]) ++
                      [{ id := idsB 0, name := fileB.name, file := fileB,
                         pdfDoc := { pages := [b1, b2] },
                         pageCount := 2,
                         arrayBuffer := fileB.arrayBuffer }],
          isProcessing := false }
        [{ pages := [a1, a2, a3] }, { pages := [b1, b2] }]
        (by simp)
        (by
          rw [hempty]
          exact List.Forall₂.cons hloadA (List.Forall₂.cons hloadB List.Forall₂.nil))
      have hnew : mergedPdf = { pages := [a1, a2, a3, b1, b2] } := by
        cases mergedPdf
        simp only [PDFDocument.mk.injEq]
        simpa using hpages
      rw [← hnew]
      exact heff

theorem mergePDFs_concatenates_witness :
    ∃ sA sB, handleFileUpload samplePdfLib (sampleIds 100) AppState.initial [sampleFileA] = .ok sA ∧
      handleFileUpload samplePdfLib (sampleIds 200) sA [sampleFileB] = .ok sB ∧
      sB.pdfFiles.map (fun f => (f.file, f.pageCount)) = [(sampleFileA, 3), (sampleFileB, 2)] ∧
      (mergePDFs samplePdfLib sB).2
        = [Effect.download
            (samplePdfLib.save { pages := [⟨"1"⟩, ⟨"2"⟩, ⟨"3"⟩, ⟨"4"⟩, ⟨"5"⟩] }) "merged.pdf"] :=
  mergePDFs_concatenates.2 samplePdfLib (sampleIds 100) (sampleIds 200) AppState.initial
    sampleFileA sampleFileB ⟨"1"⟩ ⟨"2"⟩ ⟨"3"⟩ ⟨"4"⟩ ⟨"5"⟩ rfl rfl rfl rfl rfl

/-! ## Download file names -/

/-- C16 at a document whose name has `.pdf` before its extension,
`report.pdf.signed.pdf` with the second page selected: the merged and the
all-pages outputs are named as listed, while the selected-as-one and the
single-page outputs lose the inner `.pdf` instead of the extension. -/
theorem download_names_inner_extension :
    sampleDottedFile.name = "report.pdf.signed" ++ ".pdf" ∧
      (mergePDFs samplePdfLib sampleDottedState).2
        = [Effect.download [10, 20] "merged.pdf"] ∧
      (downloadAllPagesAsPDF samplePdfLib sampleDottedState).2
        = [Effect.download [10, 20] ("edited_" ++ "report.pdf.signed" ++ ".pdf")] ∧
      (downloadSelectedAsOnePDF samplePdfLib sampleDottedState).2
        = [Effect.download [20] "report.signed.pdf_selected.pdf"] ∧
      (downloadSelectedPages samplePdfLib sampleDottedState).2
        = [Effect.download [20] "report.signed.pdf_page_2.pdf"] ∧
      "report.signed.pdf_selected.pdf" ≠ "report.pdf.signed" ++ "_selected.pdf" ∧
      "report.signed.pdf_page_2.pdf" ≠ "report.pdf.signed" ++ "_page_" ++ toString 2 ++ ".pdf" := by
  decide

/-! ## More theorems at sample inputs -/

theorem downloadSelectedAsOnePDF_current_order_witness :
    sampleSelected.selectedPages.card ≠ 0 ∧ selectionWithinPages sampleSelected ∧
      ∃ newPdf,
        (downloadSelectedAsOnePDF samplePdfLib sampleSelected).2
          = [Effect.download (samplePdfLib.save newPdf)
              (jsReplace sampleFile.name ".pdf" "" ++ "_selected.pdf")] ∧
        newPdf.pages.map some
          = (sampleSelected.splitPages.filter
              (fun p => decide (p.id ∈ sampleSelected.selectedPages))).map
              (fun p => [(⟨"10"⟩ : PDFPage), ⟨"20"⟩, ⟨"30"⟩, ⟨"40"⟩][p.pageNumber - 1]?) ∧
        newPdf.pages.length
          = (sampleSelected.splitPages.filter
              (fun p => decide (p.id ∈ sampleSelected.selectedPages))).length :=
  ⟨by decide, by decide,
    downloadSelectedAsOnePDF_current_order samplePdfLib sampleSelected sampleFile
      { pages := [⟨"10"⟩, ⟨"20"⟩, ⟨"30"⟩, ⟨"40"⟩] } (by decide) (by decide)
      (by
        intro first h
        have h0 : sampleSelected.splitPages[0]?
            = some ⟨"1730000000000.25-page-1", "1730000000000.25", 1, "report.pdf",
                "data:image/png;base64,1", 4⟩ := by decide
        rw [h0] at h
        cases h
        decide)
      rfl (by decide)⟩

theorem selection_within_pages_witness :
    ∃ s, runUser samplePdfJs AppState.initial sampleUserSession = some s ∧
      s.selectedPages.card ≠ 0 ∧
      (∀ x ∈ s.selectedPages, ∃ p ∈ s.splitPages, p.id = x) ∧
      ∃ first, s.splitPages[0]? = some first :=
  ⟨_, rfl, by decide,
    (selection_within_pages samplePdfJs AppState.initial sampleUserSession _ rfl rfl).1,
    (selection_within_pages samplePdfJs AppState.initial sampleUserSession _ rfl rfl).2.2.1
      (by decide)⟩

end NeatPDF
